import Mathlib

/-
Shallow embedding of the stock-assistant backend's parameter-optimization
core (`optimizer.py`) and of the live signal scorer (`analyzer.py`).

Modelling conventions:
* A price series is the `Close` column of the pandas DataFrame, as `List ℚ`
  (an empty list models a zero-row frame that still carries the column).
  IEEE-754 rounding is not modelled: arithmetic is exact.  The special
  values `inf`, `-inf`, `nan` produced by numpy float64 arithmetic
  (e.g. division by zero in the trading loop) are modelled by the type `F`.
* Pandas `NaN` cells inside indicator columns are modelled as `none` in
  `Option ℚ`; IEEE comparisons involving `NaN` are false, see `oltB`.
* A Python dict of strategy parameters is an association list
  `List (String × PVal)` with first-match lookup (`dictGet`); dict item
  assignment (`dictSet`) updates the first occurrence or appends.
* Exceptions (KeyError on a dict or DataFrame column, pandas ValueError on
  a negative rolling window, IndexError) are modelled by `Option`:
  a `none` result means the Python code raises at that point.
* The `random` module is modelled as an oracle `Rng`: a stream of
  `random.random()` results and a stream of naturals interpreted by
  `randInt` / `choice`; every real draw sequence corresponds to some `Rng`.
* Bollinger bands contain a rolling standard deviation, which is an
  irrational square root.  A band cell is therefore stored symbolically as
  `Surd` (base + coeff·√rad); the comparisons the code performs against a
  band are decided exactly in ℚ by `ratLtSurd` / `surdLtRat`, and the
  lemmas `ratLtSurd_correct` / `surdLtRat_correct` prove these decisions
  agree with the real-number comparisons.
-/

/-- numpy float64 values as exact rationals extended with the IEEE special
values `inf`, `-inf` and `nan` (rounding and overflow are not modelled). -/
inductive F where
  | rat (q : ℚ)
  | inf
  | ninf
  | nan
  deriving DecidableEq, Repr

/-- IEEE negation. -/
def F.neg : F → F
  | .rat q => .rat (-q)
  | .inf => .ninf
  | .ninf => .inf
  | .nan => .nan

/-- IEEE addition (exact on the rational part). -/
def F.add : F → F → F
  | .nan, _ => .nan
  | _, .nan => .nan
  | .rat a, .rat b => .rat (a + b)
  | .rat _, .inf => .inf
  | .rat _, .ninf => .ninf
  | .inf, .rat _ => .inf
  | .ninf, .rat _ => .ninf
  | .inf, .inf => .inf
  | .ninf, .ninf => .ninf
  | .inf, .ninf => .nan
  | .ninf, .inf => .nan

/-- IEEE subtraction. -/
def F.sub (a b : F) : F := a.add b.neg

/-- IEEE multiplication; `0 * inf = nan`. -/
def F.mul : F → F → F
  | .nan, _ => .nan
  | _, .nan => .nan
  | .rat a, .rat b => .rat (a * b)
  | .rat a, .inf => if 0 < a then .inf else if a < 0 then .ninf else .nan
  | .rat a, .ninf => if 0 < a then .ninf else if a < 0 then .inf else .nan
  | .inf, .rat b => if 0 < b then .inf else if b < 0 then .ninf else .nan
  | .ninf, .rat b => if 0 < b then .ninf else if b < 0 then .inf else .nan
  | .inf, .inf => .inf
  | .inf, .ninf => .ninf
  | .ninf, .inf => .ninf
  | .ninf, .ninf => .inf

/-- IEEE division; `x / 0` is a signed infinity (zero is unsigned in this
model because every zero the program produces is `+0.0`), `0 / 0 = nan`. -/
def F.div : F → F → F
  | .nan, _ => .nan
  | _, .nan => .nan
  | .rat a, .rat b =>
    if b = 0 then (if 0 < a then .inf else if a < 0 then .ninf else .nan)
    else .rat (a / b)
  | .rat _, .inf => .rat 0
  | .rat _, .ninf => .rat 0
  | .inf, .rat b => if b < 0 then .ninf else .inf
  | .ninf, .rat b => if b < 0 then .inf else .ninf
  | .inf, .inf => .nan
  | .inf, .ninf => .nan
  | .ninf, .inf => .nan
  | .ninf, .ninf => .nan

/-- IEEE strict less-than: any comparison with `nan` is false. -/
def F.ltB : F → F → Bool
  | .nan, _ => false
  | _, .nan => false
  | .rat a, .rat b => decide (a < b)
  | .rat _, .inf => true
  | .rat _, .ninf => false
  | .inf, _ => false
  | .ninf, .ninf => false
  | .ninf, _ => true

/-- IEEE equality: `nan` is not equal to anything, including itself. -/
def F.eqB : F → F → Bool
  | .rat a, .rat b => decide (a = b)
  | .inf, .inf => true
  | .ninf, .ninf => true
  | _, _ => false

/-- A float is finite when it is an actual rational (not `inf`/`-inf`/`nan`). -/
def F.isFinite : F → Bool
  | .rat _ => true
  | _ => false

/-- A value stored in a strategy-parameter dict: a Python bool or int.
(The repository only ever stores bools and ints in the DNA dict.) -/
inductive PVal where
  | b (x : Bool)
  | i (n : ℤ)
  deriving DecidableEq, Repr

/-- Python truthiness, as used by `if params['strategy_BB']:`. -/
def PVal.truthy : PVal → Bool
  | .b x => x
  | .i n => decide (n ≠ 0)

/-- Python `int(...)` of a stored value (`bool` is an `int` subclass). -/
def PVal.toInt : PVal → ℤ
  | .b true => 1
  | .b false => 0
  | .i n => n

/-- The value as a number in a float comparison (`True == 1`, `False == 0`). -/
def PVal.toRat : PVal → ℚ
  | .b true => 1
  | .b false => 0
  | .i n => (n : ℚ)

/-- A Python dict of strategy parameters, in insertion order. -/
abbrev Params := List (String × PVal)

/-- Dict lookup `p[k]` (first match; a dict never has duplicate keys). -/
def dictGet (p : Params) (k : String) : Option PVal :=
  match p with
  | [] => none
  | (k1, v) :: rest => if k1 = k then some v else dictGet rest k

/-- Dict assignment `p[k] = v`: update the first occurrence or append. -/
def dictSet (p : Params) (k : String) (v : PVal) : Params :=
  match p with
  | [] => [(k, v)]
  | (k1, v1) :: rest => if k1 = k then (k1, v) :: rest else (k1, v1) :: dictSet rest k v

/-- `p.keys()` in iteration order. -/
def dictKeys (p : Params) : List String := p.map Prod.fst

/-- Oracle for the `random` module: `floats` enumerates successive
`random.random()` results, `ints` feeds `randint`/`choice`; `fi`/`ii` are
the positions of the next unread draw. -/
structure Rng where
  floats : ℕ → ℚ
  ints : ℕ → ℕ
  fi : ℕ
  ii : ℕ

/-- `random.random()`. -/
def Rng.randFloat (g : Rng) : ℚ × Rng :=
  (g.floats g.fi, { g with fi := g.fi + 1 })

/-- `random.randint(a, b)`: some value in `[a, b]`, chosen by the oracle. -/
def Rng.randInt (g : Rng) (a b : ℤ) : ℤ × Rng :=
  (a + (g.ints g.ii : ℤ) % (b - a + 1), { g with ii := g.ii + 1 })

/-- `random.choice` on a list of length `n`: an index in `[0, n)`. -/
def Rng.choice (g : Rng) (n : ℕ) : ℕ × Rng :=
  (g.ints g.ii % n, { g with ii := g.ii + 1 })

/-- All cells of a window are non-`NaN`. -/
def allSome (l : List (Option ℚ)) : Option (List ℚ) := l.mapM id

/-- The length-`w` window of `xs` ending at index `i` (for `w ≤ i + 1`). -/
def windowAt (w : ℕ) (xs : List (Option ℚ)) (i : ℕ) : List (Option ℚ) :=
  (xs.take (i + 1)).drop (i + 1 - w)

/-- `Series.rolling(window=w).mean()`: `NaN` until the window is full or if
any cell in the window is `NaN` (pandas default `min_periods = w`). -/
def rollingMean (w : ℕ) (xs : List (Option ℚ)) : List (Option ℚ) :=
  (List.range xs.length).map fun i =>
    if i + 1 < w ∨ w = 0 then none
    else
      match allSome (windowAt w xs i) with
      | some vs => some (vs.sum / (w : ℚ))
      | none => none

/-- `Series.rolling(window=w).std()` squared: the rolling sample variance
(`ddof = 1`, so `NaN` for `w ≤ 1`). -/
def rollingVar (w : ℕ) (xs : List (Option ℚ)) : List (Option ℚ) :=
  (List.range xs.length).map fun i =>
    if i + 1 < w ∨ w ≤ 1 then none
    else
      match allSome (windowAt w xs i) with
      | some vs => some ((vs.map (fun x => (x - vs.sum / (w : ℚ)) ^ 2)).sum / ((w : ℚ) - 1))
      | none => none

/-- `Series.diff()`: `NaN` first, then successive differences. -/
def seriesDiff (closes : List ℚ) : List (Option ℚ) :=
  match closes with
  | [] => []
  | _ :: _ => none :: List.zipWith (fun a b => some (b - a)) closes closes.tail

/-- A Bollinger-band cell, kept symbolically as `base + coeff * √rad`
(with `rad ≥ 0` by construction: it is a rolling variance). -/
structure Surd where
  base : ℚ
  coeff : ℚ
  rad : ℚ
  deriving DecidableEq, Repr

/-- Decide `q < s.base + s.coeff * √s.rad` exactly in ℚ (see
`ratLtSurd_correct`). -/
def ratLtSurd (q : ℚ) (s : Surd) : Bool :=
  let d := q - s.base
  if 0 ≤ s.coeff then decide (d < 0) || decide (d ^ 2 < s.coeff ^ 2 * s.rad)
  else decide (d < 0) && decide (s.coeff ^ 2 * s.rad < d ^ 2)

/-- Decide `s.base + s.coeff * √s.rad < q` exactly in ℚ (see
`surdLtRat_correct`). -/
def surdLtRat (s : Surd) (q : ℚ) : Bool :=
  let d := q - s.base
  if s.coeff ≤ 0 then decide (0 < d) || decide (d ^ 2 < s.coeff ^ 2 * s.rad)
  else decide (0 < d) && decide (s.coeff ^ 2 * s.rad < d ^ 2)

/-- IEEE `x < y` on possibly-`NaN` indicator cells: false if either side
is `NaN`. -/
def oltB : Option ℚ → Option ℚ → Bool
  | some a, some b => decide (a < b)
  | _, _ => false

/-- IEEE `q < band` with a possibly-`NaN` band cell. -/
def ltBandB (q : ℚ) (s : Option Surd) : Bool :=
  match s with
  | some s => ratLtSurd q s
  | none => false

/-- IEEE `q > band` with a possibly-`NaN` band cell. -/
def gtBandB (q : ℚ) (s : Option Surd) : Bool :=
  match s with
  | some s => surdLtRat s q
  | none => false

/-- The `100 - 100/(1 + gain/loss)` formula for one cell, with numpy's
division conventions: `x/0 = inf` for `x > 0` (giving RSI 100) and
`0/0 = NaN`.  `gain` and `loss` are rolling means of nonnegative series. -/
def rsiPoint : Option ℚ → Option ℚ → Option ℚ
  | some g, some l =>
    if l = 0 then (if g = 0 then none else some 100)
    else some (100 - 100 / (1 + g / l))
  | _, _ => none

namespace Analyzer

/-- `Analyzer.calculate_rsi` (analyzer.py:8-13).  `delta.where(delta > 0, 0)`
replaces the leading `NaN` of `diff()` by 0, so the gain/loss series are
fully defined; `none` models the ValueError pandas raises on a negative
rolling window. -/
def calculate_rsi (closes : List ℚ) (window : ℤ) : Option (List (Option ℚ)) :=
  if window < 0 then none
  else
    let delta := seriesDiff closes
    let gain := rollingMean window.toNat
      (delta.map fun d => some (match d with | some x => if 0 < x then x else 0 | none => 0))
    let loss := rollingMean window.toNat
      (delta.map fun d => some (match d with | some x => if x < 0 then -x else 0 | none => 0))
    some (List.zipWith rsiPoint gain loss)

/-- `Analyzer.calculate_sma` (analyzer.py:15-16). -/
def calculate_sma (closes : List ℚ) (window : ℤ) : Option (List (Option ℚ)) :=
  if window < 0 then none else some (rollingMean window.toNat (closes.map some))

/-- `Analyzer.calculate_bollinger` (analyzer.py:21-26): upper and lower
bands `sma ± dev * std`, each cell kept as a `Surd`. -/
def calculate_bollinger (closes : List ℚ) (window dev : ℤ) :
    Option (List (Option Surd) × List (Option Surd)) :=
  if window < 0 then none
  else
    let sma := rollingMean window.toNat (closes.map some)
    let var := rollingVar window.toNat (closes.map some)
    some (List.zipWith (fun m v => match m, v with
            | some m, some v => some (Surd.mk m (dev : ℚ) v)
            | _, _ => none) sma var,
          List.zipWith (fun m v => match m, v with
            | some m, some v => some (Surd.mk m (-(dev : ℚ)) v)
            | _, _ => none) sma var)

end Analyzer

/-- The default DNA (`optimizer.py:41-52`). -/
def defaultDNA : Params :=
  [("strategy_RSI", .b true), ("strategy_MA", .b true), ("strategy_BB", .b false),
   ("rsi_window", .i 14), ("rsi_buy", .i 30), ("rsi_sell", .i 70),
   ("ma_short", .i 20), ("ma_long", .i 50), ("bb_window", .i 20), ("bb_dev", .i 2)]

/-- The indicator columns `_backtest` precomputes (optimizer.py:132-141);
`bb = some _` exactly when `params['strategy_BB']` was truthy, mirroring
which columns exist on `df_test`. -/
structure Cols where
  rsi : List (Option ℚ)
  smaS : List (Option ℚ)
  smaL : List (Option ℚ)
  bb : Option (List (Option Surd) × List (Option Surd))
  deriving DecidableEq, Repr

/-- Indicator cell at row `i` (`df_test.iloc[i][col]`); the loop keeps `i`
in range, out-of-range is never exercised. -/
def colAt (xs : List (Option ℚ)) (i : ℕ) : Option ℚ := (xs[i]?).join

/-- Band cell at row `i`. -/
def colBandAt (xs : List (Option Surd)) (i : ℕ) : Option Surd := (xs[i]?).join

/-- The `try:` block of `_backtest` (optimizer.py:132-142): precompute the
indicator columns.  `none` means the block raised (missing dict key, or a
negative window) and `_backtest` returns the −100 penalty. -/
def computeIndicators (closes : List ℚ) (params : Params) : Option Cols :=
  match dictGet params "rsi_window" with
  | none => none
  | some wr =>
    match Analyzer.calculate_rsi closes wr.toInt with
    | none => none
    | some rsi =>
      match dictGet params "ma_short" with
      | none => none
      | some ws =>
        match Analyzer.calculate_sma closes ws.toInt with
        | none => none
        | some smaS =>
          match dictGet params "ma_long" with
          | none => none
          | some wl =>
            match Analyzer.calculate_sma closes wl.toInt with
            | none => none
            | some smaL =>
              match dictGet params "strategy_BB" with
              | none => none
              | some sBB =>
                if sBB.truthy then
                  match dictGet params "bb_window", dictGet params "bb_dev" with
                  | some wb, some dv =>
                    match Analyzer.calculate_bollinger closes wb.toInt dv.toInt with
                    | none => none
                    | some ul => some (Cols.mk rsi smaS smaL (some ul))
                  | _, _ => none
                else some (Cols.mk rsi smaS smaL none)

/-- The per-bar score of the backtest loop (optimizer.py:153-168), for the
bar at index `i` with close `price`.  `none` models a KeyError: a strategy
key missing from the dict, or the BB columns read while absent. -/
def barScore (price : ℚ) (cols : Cols) (params : Params) (i : ℕ) : Option ℚ :=
  match dictGet params "strategy_RSI" with
  | none => none
  | some sRSI =>
    let step1 : Option ℚ :=
      if sRSI.truthy then
        match dictGet params "rsi_buy" with
        | none => none
        | some buy =>
          if oltB (colAt cols.rsi i) (some buy.toRat) then some (0 + 1)
          else
            match dictGet params "rsi_sell" with
            | none => none
            | some sell =>
              if oltB (some sell.toRat) (colAt cols.rsi i) then some (0 - 1)
              else some 0
      else some 0
    match step1 with
    | none => none
    | some s1 =>
      match dictGet params "strategy_MA" with
      | none => none
      | some sMA =>
        let s2 : ℚ :=
          if sMA.truthy then
            if oltB (colAt cols.smaS (i - 1)) (colAt cols.smaL (i - 1)) &&
                oltB (colAt cols.smaL i) (colAt cols.smaS i) then s1 + 2
            else if oltB (colAt cols.smaL (i - 1)) (colAt cols.smaS (i - 1)) &&
                oltB (colAt cols.smaS i) (colAt cols.smaL i) then s1 - 2
            else s1
          else s1
        match dictGet params "strategy_BB" with
        | none => none
        | some sBB =>
          if sBB.truthy then
            match cols.bb with
            | some ul =>
              some (if ltBandB price (colBandAt ul.2 i) then s2 + 3/2
                    else if gtBandB price (colBandAt ul.1 i) then s2 - 3/2
                    else s2)
            | none => none
          else some s2

/-- One iteration of the trading loop (optimizer.py:149-177); the state is
`(capital, position)`. -/
def tradeStep (closes : List ℚ) (cols : Cols) (params : Params)
    (st : F × F) (i : ℕ) : Option (F × F) :=
  match closes[i]? with
  | none => none
  | some price =>
    match barScore price cols params i with
    | none => none
    | some score =>
      some (if decide ((3 : ℚ)/2 ≤ score) && F.eqB st.2 (F.rat 0) then
              (F.rat 0, F.div st.1 (F.rat price))
            else if decide (score ≤ -((3 : ℚ)/2)) && F.ltB (F.rat 0) st.2 then
              (F.mul st.2 (F.rat price), F.rat 0)
            else st)

namespace Optimizer

/-- `Optimizer._backtest` (optimizer.py:121-181).  `some f` is the returned
fitness; `none` means an uncaught exception escapes (the `try` protects
only the indicator precomputation, not the trading loop). -/
def backtest (closes : List ℚ) (params : Params) : Option F :=
  match computeIndicators closes params with
  | none => some (F.rat (-100))
  | some cols =>
    match ((List.range closes.length).drop 50).foldlM
        (tradeStep closes cols params) (F.rat 10000, F.rat 0) with
    | none => none
    | some st =>
      match (if F.ltB (F.rat 0) st.2 then
              match closes.getLast? with
              | none => none
              | some last => some (F.add st.1 (F.mul st.2 (F.rat last)))
            else some st.1) with
      | none => none
      | some final =>
        some (F.mul (F.div (F.sub final (F.rat 10000)) (F.rat 10000)) (F.rat 100))

end Optimizer

namespace Optimizer

/-- The recursion of `_crossover` over `p1`'s keys (optimizer.py:183-187):
per key, keep `p1`'s value when `random.random() > 0.5`, else read `p2[k]`
(whose KeyError, when `p2` lacks the key, is modelled by `none`). -/
def crossoverGo (p2 : Params) (child : Params) (entries : Params) (g : Rng) :
    Option (Params × Rng) :=
  match entries with
  | [] => some (child, g)
  | (k, v1) :: rest =>
    let r := g.randFloat
    if (1 : ℚ)/2 < r.1 then crossoverGo p2 (dictSet child k v1) rest r.2
    else
      match dictGet p2 k with
      | none => none
      | some v2 => crossoverGo p2 (dictSet child k v2) rest r.2

/-- `Optimizer._crossover` (optimizer.py:183-187), starting from the empty
dict `child = {}`. -/
def crossover (p1 p2 : Params) (g : Rng) : Option (Params × Rng) :=
  crossoverGo p2 [] p1 g

/-- One `if random.random() < 0.3: p[key] = random.randint(lo, hi)` line of
`_mutate`. -/
def mutateNum (p : Params) (key : String) (lo hi : ℤ) (g : Rng) : Params × Rng :=
  let r := g.randFloat
  if r.1 < 3/10 then
    let v := r.2.randInt lo hi
    (dictSet p key (.i v.1), v.2)
  else (p, r.2)

/-- `Optimizer._mutate` (optimizer.py:189-197); `none` is the KeyError from
`not p['strategy_BB']` when that key is missing. -/
def mutate (params : Params) (g : Rng) : Option (Params × Rng) :=
  let r1 := mutateNum params "rsi_window" 5 30 g
  let r2 := mutateNum r1.1 "rsi_buy" 10 40 r1.2
  let r3 := mutateNum r2.1 "rsi_sell" 60 90 r2.2
  let r4 := mutateNum r3.1 "ma_short" 5 50 r3.2
  let r5 := mutateNum r4.1 "ma_long" 50 200 r4.2
  let rg := r5.2.randFloat
  if rg.1 < 3/10 then
    match dictGet r5.1 "strategy_BB" with
    | none => none
    | some v => some (dictSet r5.1 "strategy_BB" (.b (!v.truthy)), rg.2)
  else some (r5.1, rg.2)

end Optimizer

/-- A `{generation, best_score, best_params}` entry of the run history
(optimizer.py:98-102). -/
structure GenRecord where
  generation : ℕ
  best_score : F
  best_params : Params
  deriving DecidableEq, Repr

/-- The optimizer's in-memory state together with the durable artifacts:
`dna_file` and `history_file` hold the parsed contents of
`backend/best_dna.json` and `backend/optimization_history.json`
(`none` = file missing or unparsable). -/
structure OptState where
  best_params : Params
  best_score : F
  dna_file : Option Params
  history_file : Option (Params × F × List GenRecord)
  deriving DecidableEq, Repr

namespace Optimizer

/-- `Optimizer.__init__` (optimizer.py:10-18): `_load_dna` falls back to
the default DNA when the file is missing or unparsable, and `best_score`
is set to −1000.0; the persisted score is never read back. -/
def init (dnaFile : Option Params)
    (historyFile : Option (Params × F × List GenRecord)) : OptState :=
  { best_params := dnaFile.getD defaultDNA
    best_score := F.rat (-1000)
    dna_file := dnaFile
    history_file := historyFile }

/-- `self._save_dna(params)` (optimizer.py:199-201). -/
def save_dna (st : OptState) (params : Params) : OptState :=
  { st with dna_file := some params }

/-- Fitness evaluation of a population (optimizer.py:80-83); an exception
escaping `_backtest` aborts the whole run (`none`). -/
def evalScores (closes : List ℚ) (population : List Params) :
    Option (List (F × Params)) :=
  population.mapM fun ind => (backtest closes ind).map fun s => (s, ind)

/-- Stable descending insertion of an individual: walk past strictly
greater fitnesses, and stop at the first fitness that is not greater, so
earlier elements with an equal key stay first. -/
def insertDesc (x : F × Params) : List (F × Params) → List (F × Params)
  | [] => [x]
  | y :: ys => if F.ltB x.1 y.1 then y :: insertDesc x ys else x :: y :: ys

/-- `scores.sort(key=lambda x: x[0], reverse=True)` (optimizer.py:86):
stable descending sort by fitness (with `NaN` fitnesses Timsort's exact
order is unspecified; this model fixes a stable insertion sort, and no
theorem below depends on the ordering). -/
def sortScores (scores : List (F × Params)) : List (F × Params) :=
  scores.foldr insertDesc []

/-- The reproduction loop (optimizer.py:107-113): produce `need` children,
each from two `random.choice` parents among `pool = scores[:5]`, by
crossover then mutation.  `random.choice` on an empty pool raises. -/
def refill (pool : List (F × Params)) (need : ℕ) (g : Rng) :
    Option (List Params × Rng) :=
  match need with
  | 0 => some ([], g)
  | n + 1 => do
    let (i1, g) := g.choice pool.length
    let p1 ← pool[i1]?
    let (i2, g) := g.choice pool.length
    let p2 ← pool[i2]?
    let (child, g) ← crossover p1.2 p2.2 g
    let (child, g) ← mutate child g
    let (rest, g) ← refill pool n g
    pure (child :: rest, g)

/-- One iteration of the generation loop (optimizer.py:78-115): evaluate,
sort, update the all-time best (persisting the DNA on improvement), append
the generation record, and rebuild the population (top-2 elitism plus
children). -/
def generationStep (closes : List ℚ) (gen : ℕ)
    (st : OptState) (population : List Params) (hist : List GenRecord)
    (g : Rng) : Option (OptState × List Params × List GenRecord × Rng) := do
  let scores ← evalScores closes population
  let sorted := sortScores scores
  let top ← sorted.head?
  let st := if F.ltB st.best_score top.1 then
      save_dna { st with best_score := top.1, best_params := top.2 } top.2
    else st
  let hist := hist ++ [GenRecord.mk gen top.1 top.2]
  let newPop := (sorted.take 2).map Prod.snd
  let (children, g) ← refill (sorted.take 5) (10 - newPop.length) g
  pure (st, newPop ++ children, hist, g)

/-- `[self._mutate(self.best_params) for _ in range(POPULATION_SIZE)]`
(optimizer.py:74). -/
def popInit (best : Params) (n : ℕ) (g : Rng) : Option (List Params × Rng) :=
  match n with
  | 0 => some ([], g)
  | n + 1 => do
    let (p, g) ← mutate best g
    let (rest, g) ← popInit best n g
    pure (p :: rest, g)

/-- The `for gen in range(GENERATIONS)` loop of `run_simulation`,
iterating `generationStep` starting at generation index `gen`. -/
def simLoop (closes : List ℚ) (gens : ℕ) (gen : ℕ)
    (st : OptState) (population : List Params) (hist : List GenRecord)
    (g : Rng) : Option (OptState × List GenRecord × Rng) :=
  match gens with
  | 0 => some (st, hist, g)
  | n + 1 => do
    let (st, pop, hist, g) ← generationStep closes gen st population hist g
    simLoop closes n (gen + 1) st pop hist g

/-- `Optimizer.run_simulation` (optimizer.py:54-119).  The price series the
data-loader collaborator returned is an argument; the result pairs the
Python return value (`none` models the early `return` on an empty frame)
with the updated optimizer state, and an outer `none` models an uncaught
exception.  `self._save_history(history)` (optimizer.py:203-209) is the
final `history_file` update. -/
def run_simulation (st : OptState) (closes : List ℚ) (generations : ℕ)
    (g : Rng) : Option (Option Params × OptState) :=
  if closes.isEmpty then some (none, st)
  else do
    let (population, g) ← popInit st.best_params 10 g
    let (st, hist, _) ← simLoop closes generations 0 st population [] g
    let st := { st with history_file := some (st.best_params, st.best_score, hist) }
    pure (some st.best_params, st)

end Optimizer

/-- `Analyzer.check_volume_surge` (analyzer.py:28-37) over the frame's
`Close` and `Volume` columns (the frame length is `closes.length`). -/
def check_volume_surge (closes volumes : List ℚ) (multiplier : ℚ) : Bool :=
  if closes.length < 20 then false
  else
    let w := volumes.dropLast
    let w20 := w.drop (w.length - 20)
    decide ((w20.sum / (w20.length : ℚ)) * multiplier < volumes.getLast?.getD 0)

/-- The modelled part of the dict `analyze_stock` returns (the formatted
`details` strings are presentation-only and not modelled). -/
structure AnalysisResult where
  signal : String
  score : ℚ
  current_price : ℚ
  rsi : ℚ
  deriving DecidableEq, Repr

/-- `analyze_stock` either returns the `"Insufficient data"` dict or a full
analysis. -/
inductive AnalyzeOut where
  | insufficientData
  | result (r : AnalysisResult)
  deriving DecidableEq, Repr

/-- The parameter defaults `analyze_stock` builds when called with
`params=None` (analyzer.py:46-55). -/
def analyzeDefaults : Params :=
  [("strategy_RSI", .b true), ("strategy_MA", .b true),
   ("rsi_window", .i 14), ("rsi_buy", .i 30), ("rsi_sell", .i 70),
   ("ma_short", .i 20), ("ma_long", .i 50)]

/-- `Analyzer.analyze_stock` (analyzer.py:39-111) on the `Close` and
`Volume` columns; `none` models an exception (a negative rolling window
from the supplied parameters). -/
def analyze_stock (closes volumes : List ℚ) (params0 : Option Params) :
    Option AnalyzeOut :=
  if closes.length = 0 ∨ closes.length < 50 then some .insufficientData
  else
    let params := params0.getD analyzeDefaults
    match Analyzer.calculate_rsi closes
        ((dictGet params "rsi_window").getD (.i 14)).toInt with
    | none => none
    | some rsi =>
    match Analyzer.calculate_sma closes
        ((dictGet params "ma_short").getD (.i 20)).toInt with
    | none => none
    | some smaS =>
    match Analyzer.calculate_sma closes
        ((dictGet params "ma_long").getD (.i 50)).toInt with
    | none => none
    | some smaL =>
    let last := closes.length - 1
    let prev := closes.length - 2
    let score : ℚ := 0
    let score := if ((dictGet params "strategy_RSI").getD (.b true)).truthy then
        (if oltB (colAt rsi last) (some ((dictGet params "rsi_buy").getD (.i 30)).toRat) then
          score + 1
        else if oltB (some ((dictGet params "rsi_sell").getD (.i 70)).toRat) (colAt rsi last) then
          score - 1
        else score)
      else score
    let score := if ((dictGet params "strategy_MA").getD (.b true)).truthy then
        (let score := if oltB (colAt smaS prev) (colAt smaL prev) &&
              oltB (colAt smaL last) (colAt smaS last) then score + 2
            else if oltB (colAt smaL prev) (colAt smaS prev) &&
              oltB (colAt smaS last) (colAt smaL last) then score - 2
            else score
         if oltB (colAt smaL last) (colAt smaS last) then score + 1/2 else score)
      else score
    let score := if check_volume_surge closes volumes 2 then score + 3/2 else score
    let decision := if (3 : ℚ)/2 ≤ score then "Buy"
      else if score ≤ -((3 : ℚ)/2) then "Sell"
      else "Neutral"
    some (.result (AnalysisResult.mk decision score
      ((closes[last]?).getD 0) ((colAt rsi last).getD 0)))

/-- One step of the trading machine exactly as claim C1 words it: from bar
50 on, a score ≥ 1.5 while flat converts all cash into shares at that
bar's close, and a score ≤ −1.5 while shares are held converts all shares
into cash at that bar's close. -/
def specTradeStep (sc : ℕ → ℚ) (closeAt : ℕ → ℚ) (st : F × F) (i : ℕ) : F × F :=
  let st := if decide ((3 : ℚ)/2 ≤ sc i) && F.eqB st.2 (F.rat 0) then
      (F.rat 0, F.div st.1 (F.rat (closeAt i)))
    else st
  if decide (sc i ≤ -((3 : ℚ)/2)) && F.ltB (F.rat 0) st.2 then
    (F.mul st.2 (F.rat (closeAt i)), F.rat 0)
  else st

/-- The claim's trading machine run over bars 50..n−1, from cash 10000 and
shares 0. -/
def specFinalState (sc closeAt : ℕ → ℚ) (n : ℕ) : F × F :=
  ((List.range n).drop 50).foldl (specTradeStep sc closeAt) (F.rat 10000, F.rat 0)

/-- Fitness as claim C1 words it: (final liquidation value − 10000)/10000
× 100, reading "final liquidation value" as cash + shares·(last close). -/
def claimFitness (sc closeAt : ℕ → ℚ) (n : ℕ) : F :=
  let st := specFinalState sc closeAt n
  let liq := F.add st.1 (F.mul st.2 (F.rat (closeAt (n - 1))))
  F.mul (F.div (F.sub liq (F.rat 10000)) (F.rat 10000)) (F.rat 100)

/-- Fitness with the amended liquidation: only a positive share position is
liquidated at the last close (a negative position — reachable only by
buying at a negative close — is dropped, as the code does). -/
def amendedFitness (sc closeAt : ℕ → ℚ) (n : ℕ) : F :=
  let st := specFinalState sc closeAt n
  let liq := if F.ltB (F.rat 0) st.2 then
      F.add st.1 (F.mul st.2 (F.rat (closeAt (n - 1))))
    else st.1
  F.mul (F.div (F.sub liq (F.rat 10000)) (F.rat 10000)) (F.rat 100)

/-- One bar's indicator snapshot (current and previous row), the input of
the live signal scorer as claim C7 describes it. -/
structure Snapshot where
  rsi : Option ℚ
  smaSPrev : Option ℚ
  smaLPrev : Option ℚ
  smaS : Option ℚ
  smaL : Option ℚ
  close : ℚ
  bbUpper : Option ℚ
  bbLower : Option ℚ
  deriving DecidableEq, Repr

/-- The live-path score exactly as claim C7 states it: the sum of the rule
contributions RSI ±1, cross ±2, Bollinger ±1.5, trend +0.5, each gated by
its strategy toggle (toggle defaults as in the live path: RSI and MA
default on, BB defaults off). -/
def claimLiveScore (s : Snapshot) (params : Params) : ℚ :=
  (if ((dictGet params "strategy_RSI").getD (.b true)).truthy &&
      oltB s.rsi (some ((dictGet params "rsi_buy").getD (.i 30)).toRat) then 1 else 0) +
  (if ((dictGet params "strategy_RSI").getD (.b true)).truthy &&
      oltB (some ((dictGet params "rsi_sell").getD (.i 70)).toRat) s.rsi then -1 else 0) +
  (if ((dictGet params "strategy_MA").getD (.b true)).truthy &&
      oltB s.smaSPrev s.smaLPrev && oltB s.smaL s.smaS then 2 else 0) +
  (if ((dictGet params "strategy_MA").getD (.b true)).truthy &&
      oltB s.smaLPrev s.smaSPrev && oltB s.smaS s.smaL then -2 else 0) +
  (if ((dictGet params "strategy_BB").getD (.b false)).truthy &&
      oltB (some s.close) s.bbLower then 3/2 else 0) +
  (if ((dictGet params "strategy_BB").getD (.b false)).truthy &&
      oltB s.bbUpper (some s.close) then -(3/2) else 0) +
  (if ((dictGet params "strategy_MA").getD (.b true)).truthy &&
      oltB s.smaL s.smaS then 1/2 else 0)

/-- The live-path score as `analyze_stock` actually computes it: RSI rules
gated by strategy_RSI; cross rules and the +0.5 trend bias gated by
strategy_MA; an ungated +1.5 volume-surge bonus; no Bollinger rule. -/
def amendedLiveScore (s : Snapshot) (surge : Bool) (params : Params) : ℚ :=
  (if ((dictGet params "strategy_RSI").getD (.b true)).truthy &&
      oltB s.rsi (some ((dictGet params "rsi_buy").getD (.i 30)).toRat) then 1 else 0) +
  (if ((dictGet params "strategy_RSI").getD (.b true)).truthy &&
      !(oltB s.rsi (some ((dictGet params "rsi_buy").getD (.i 30)).toRat)) &&
      oltB (some ((dictGet params "rsi_sell").getD (.i 70)).toRat) s.rsi then -1 else 0) +
  (if ((dictGet params "strategy_MA").getD (.b true)).truthy &&
      oltB s.smaSPrev s.smaLPrev && oltB s.smaL s.smaS then 2 else 0) +
  (if ((dictGet params "strategy_MA").getD (.b true)).truthy &&
      !(oltB s.smaSPrev s.smaLPrev && oltB s.smaL s.smaS) &&
      oltB s.smaLPrev s.smaSPrev && oltB s.smaS s.smaL then -2 else 0) +
  (if ((dictGet params "strategy_MA").getD (.b true)).truthy &&
      oltB s.smaL s.smaS then 1/2 else 0) +
  (if surge then 3/2 else 0)

/-- The indicator snapshot the live path actually works from: the last and
second-to-last rows of the computed RSI/SMA columns (no Bollinger columns
exist on the live path, so the band cells are undefined). -/
def liveSnapshot (closes : List ℚ) (params : Params) : Option Snapshot :=
  match Analyzer.calculate_rsi closes
      ((dictGet params "rsi_window").getD (.i 14)).toInt with
  | none => none
  | some rsi =>
  match Analyzer.calculate_sma closes
      ((dictGet params "ma_short").getD (.i 20)).toInt with
  | none => none
  | some smaS =>
  match Analyzer.calculate_sma closes
      ((dictGet params "ma_long").getD (.i 50)).toInt with
  | none => none
  | some smaL =>
  let last := closes.length - 1
  let prev := closes.length - 2
  some (Snapshot.mk (colAt rsi last) (colAt smaS prev) (colAt smaL prev)
    (colAt smaS last) (colAt smaL last) ((closes[last]?).getD 0) none none)

/-- The data-model invariant on a StrategyParameters dict (spec §3):
rsi_buy < rsi_sell, ma_short < ma_long, all windows ≥ 2. -/
def invariantB (p : Params) : Bool :=
  match dictGet p "rsi_buy", dictGet p "rsi_sell", dictGet p "ma_short",
      dictGet p "ma_long", dictGet p "rsi_window", dictGet p "bb_window" with
  | some rb, some rs, some ms, some ml, some rw, some bw =>
    decide (rb.toInt < rs.toInt) && decide (ms.toInt < ml.toInt) &&
    decide (2 ≤ rw.toInt) && decide (2 ≤ bw.toInt) &&
    decide (2 ≤ ms.toInt) && decide (2 ≤ ml.toInt)
  | _, _, _, _, _, _ => false

/-- The weakened invariant that mutation actually preserves: `ma_short ≤
ma_long` (the two domains share the boundary value 50, so equality is
reachable), the rest as before. -/
def invariantWeakB (p : Params) : Bool :=
  match dictGet p "rsi_buy", dictGet p "rsi_sell", dictGet p "ma_short",
      dictGet p "ma_long", dictGet p "rsi_window", dictGet p "bb_window" with
  | some rb, some rs, some ms, some ml, some rw, some bw =>
    decide (rb.toInt < rs.toInt) && decide (ms.toInt ≤ ml.toInt) &&
    decide (2 ≤ rw.toInt) && decide (2 ≤ bw.toInt) &&
    decide (2 ≤ ms.toInt) && decide (2 ≤ ml.toInt)
  | _, _, _, _, _, _ => false

/-- All numeric parameters lie inside the declared mutation domains
(rsi_window ∈ [5,30], rsi_buy ∈ [10,40], rsi_sell ∈ [60,90], ma_short ∈
[5,50], ma_long ∈ [50,200]) and bb_window ≥ 2. -/
def inDomainsB (p : Params) : Bool :=
  match dictGet p "rsi_buy", dictGet p "rsi_sell", dictGet p "ma_short",
      dictGet p "ma_long", dictGet p "rsi_window", dictGet p "bb_window" with
  | some (.i rb), some (.i rs), some (.i ms), some (.i ml), some (.i rw), some (.i bw) =>
    decide (5 ≤ rw ∧ rw ≤ 30) && decide (10 ≤ rb ∧ rb ≤ 40) &&
    decide (60 ≤ rs ∧ rs ≤ 90) && decide (5 ≤ ms ∧ ms ≤ 50) &&
    decide (50 ≤ ml ∧ ml ≤ 200) && decide (2 ≤ bw)
  | _, _, _, _, _, _ => false

/-- Every key of the fixed StrategyParameters schema is present (spec §3:
"a mapping with fixed keys"). -/
def hasAllKeysB (p : Params) : Bool :=
  ["strategy_RSI", "strategy_MA", "strategy_BB", "rsi_window", "rsi_buy",
   "rsi_sell", "ma_short", "ma_long", "bb_window", "bb_dev"].all
    fun k => (dictGet p k).isSome

/-- Ten bars at a constant close of 100: a series shorter than the 50-bar
warm-up whose indicator precomputation succeeds. -/
def shortSeries : List ℚ := List.replicate 10 100

/-- A 51-bar series whose bar 50 (its last bar) is a golden cross of the
2-bar over the 3-bar SMA at a close of −5. -/
def crossNegSeries : List ℚ := List.replicate 48 100 ++ [10, 30, -5]

/-- A 100-bar series of finite closes with a golden cross at bar 50, whose
close is 0. -/
def crossZeroSeries : List ℚ :=
  List.replicate 48 100 ++ [10, 30, 0] ++ List.replicate 49 100

/-- Parameters with only the MA strategy on and SMA windows 2 < 3;
rsi_buy = 30 < rsi_sell = 70, all windows ≥ 2. -/
def maOnlyParams : Params :=
  [("strategy_RSI", .b false), ("strategy_MA", .b true), ("strategy_BB", .b false),
   ("rsi_window", .i 2), ("rsi_buy", .i 30), ("rsi_sell", .i 70),
   ("ma_short", .i 2), ("ma_long", .i 3), ("bb_window", .i 20), ("bb_dev", .i 2)]

/-- The columns the backtest computes on `crossNegSeries`. -/
def colsNeg : Cols :=
  (computeIndicators crossNegSeries maOnlyParams).getD (Cols.mk [] [] [] none)

/-- Fifty bars at a constant close of 100. -/
def flatSeries : List ℚ := List.replicate 50 100

/-- Flat volume with a 10x surge on the last bar. -/
def surgeVolumes : List ℚ := List.replicate 49 1 ++ [10]

/-- A parameter dict with all three strategy toggles off. -/
def togglesOffParams : Params :=
  [("strategy_RSI", .b false), ("strategy_MA", .b false), ("strategy_BB", .b false)]

/-- A parameter dict satisfying the data-model invariant, with
ma_short = 50 (the upper end of its mutation domain) and ma_long = 60. -/
def boundaryParams : Params :=
  dictSet (dictSet defaultDNA "ma_short" (.i 50)) "ma_long" (.i 60)

/-- A draw sequence that selects only the ma_long line for mutation
(the fifth `random.random()` is 0 < 0.3, the others 1) and resamples
ma_long to 50 + 0 = 50. -/
def rngBoundary : Rng := Rng.mk (fun n => if n = 4 then 0 else 1) (fun _ => 0) 0 0

/-- A draw sequence that mutates nothing and always picks index 0. -/
def rngQuiet : Rng := Rng.mk (fun _ => 1) (fun _ => 0) 0 0

/-- The default DNA with rsi_window = −1: all keys present, but the
indicator precomputation raises (negative rolling window). -/
def badWindowParams : Params := dictSet defaultDNA "rsi_window" (.i (-1))

/-- The reachable money states of the trading loop on positive closes:
flat with positive cash, or all-in with a positive share count. -/
def moneyInv (st : F × F) : Prop :=
  (∃ c : ℚ, 0 < c ∧ st = (F.rat c, F.rat 0)) ∨
  (∃ p : ℚ, 0 < p ∧ st = (F.rat 0, F.rat p))

/-- One hundred bars at a constant positive close. -/
def posSeries : List ℚ := List.replicate 100 100

/-- The columns the backtest computes on `shortSeries` with the default
DNA. -/
def colsShort : Cols :=
  (computeIndicators shortSeries defaultDNA).getD (Cols.mk [] [] [] none)

set_option maxRecDepth 4000000

/-- C9: if the data loader returns an empty price series, `run_simulation`
returns `None` (not a parameter set) and leaves `best_params`,
`best_score`, the best-DNA file and the history file all unchanged. -/
theorem claim_C9_empty_series (st : OptState) (gens : ℕ) (g : Rng) :
    Optimizer.run_simulation st [] gens g = some (none, st) := rfl

/-- C3 counterexample: an explicit 10-bar series (shorter than 50 bars,
carrying a Close column) on which `_backtest` returns fitness 0 — not the
−100 invalid-parameter penalty the claim states. -/
theorem claim_C3_counterexample :
    shortSeries.length < 50 ∧
    Optimizer.backtest shortSeries defaultDNA = some (F.rat 0) ∧
    F.rat 0 ≠ F.rat (-100) :=
  ⟨by decide, by with_unfolding_all decide, by decide⟩

/-- C3 amended: a series shorter than 50 bars makes `_backtest` return
without exception, with fitness 0 (the no-trade return) when the indicator
precomputation succeeds; the −100 penalty appears only when that
precomputation itself raises. -/
theorem claim_C3_amended (closes : List ℚ) (params : Params)
    (hlen : closes.length < 50) :
    Optimizer.backtest closes params =
      some (if (computeIndicators closes params).isSome = true
        then F.rat 0 else F.rat (-100)) := by
  have hdrop : ((List.range closes.length).drop 50) = [] :=
    List.drop_eq_nil_of_le (by simpa using le_of_lt hlen)
  cases h : computeIndicators closes params with
  | none => simp [Optimizer.backtest, h]
  | some cols =>
    simp only [Optimizer.backtest, h, hdrop, List.foldlM_nil, Option.isSome_some,
      if_true]
    with_unfolding_all rfl

/-- Witness for C3 amended: the 10-bar series, on which the hypothesis
holds by computation. -/
theorem claim_C3_witness :
    Optimizer.backtest shortSeries defaultDNA =
      some (if (computeIndicators shortSeries defaultDNA).isSome = true
        then F.rat 0 else F.rat (-100)) :=
  claim_C3_amended shortSeries defaultDNA (by decide)

/-- C1 counterexample: on `crossNegSeries` with `maOnlyParams` the
indicator computation succeeds and bar 50 scores +2, so the code converts
all cash to shares at close −5 (a negative share count).  The claim's
fitness — liquidation value cash + shares × last close — is 0, but the
code ignores the non-positive position and returns −100. -/
theorem claim_C1_counterexample :
    (computeIndicators crossNegSeries maOnlyParams).isSome = true ∧
    Optimizer.backtest crossNegSeries maOnlyParams = some (F.rat (-100)) ∧
    claimFitness
      (fun i => ((crossNegSeries[i]?).bind
        (fun pr => barScore pr colsNeg maOnlyParams i)).getD 0)
      (fun i => (crossNegSeries[i]?).getD 0) crossNegSeries.length = F.rat 0 ∧
    F.rat (-100) ≠ F.rat 0 :=
  ⟨by with_unfolding_all decide, by with_unfolding_all decide,
   by with_unfolding_all decide, by decide⟩

/-- C8 counterexample: `maOnlyParams` satisfies the data-model invariant
(in particular rsi_buy < rsi_sell and ma_short < ma_long), and
`crossZeroSeries` has 100 finite closes; yet the golden-cross buy at the
zero close divides by zero, and `_backtest` returns +inf — not a finite
value. -/
theorem claim_C8_counterexample :
    invariantB maOnlyParams = true ∧
    crossZeroSeries.length = 100 ∧
    Optimizer.backtest crossZeroSeries maOnlyParams = some F.inf ∧
    F.inf.isFinite = false :=
  ⟨by decide, by decide, by with_unfolding_all decide, by decide⟩

/-- C7 counterexample: on 50 flat bars with a volume surge on the last bar
and all three strategy toggles off, the claim's rule table sums to score 0
(Neutral), but `analyze_stock` adds the ungated +1.5 volume-surge bonus
and answers Buy with score 1.5 — the live path has a volume rule the claim
omits and no Bollinger rule. -/
theorem claim_C7_counterexample :
    analyze_stock flatSeries surgeVolumes (some togglesOffParams) =
      some (AnalyzeOut.result (AnalysisResult.mk "Buy" (3/2) 100 0)) ∧
    (liveSnapshot flatSeries togglesOffParams).map
      (fun s => claimLiveScore s togglesOffParams) = some 0 ∧
    (3/2 : ℚ) ≠ 0 :=
  ⟨by with_unfolding_all decide, by with_unfolding_all decide,
   by with_unfolding_all decide⟩

/-- C5 counterexample: `boundaryParams` satisfies the data-model invariant
(ma_short = 50 < ma_long = 60), yet the mutation that resamples only
ma_long — drawing 50, inside its declared domain [50, 200] — produces
ma_short = ma_long = 50, breaking the invariant. -/
theorem claim_C5_counterexample :
    invariantB boundaryParams = true ∧
    (Optimizer.mutate boundaryParams rngBoundary).map (fun o => invariantB o.1) =
      some false :=
  ⟨by decide, by with_unfolding_all decide⟩

theorem F.ltB_trans {a b c : F} (h1 : F.ltB a b = true) (h2 : F.ltB b c = true) :
    F.ltB a c = true := by
  cases a <;> cases b <;> cases c <;> simp_all [F.ltB]
  exact lt_trans h1 h2

theorem generationStep_best {closes : List ℚ} {gen : ℕ} {st : OptState}
    {pop : List Params} {hist : List GenRecord} {g : Rng}
    {out : OptState × List Params × List GenRecord × Rng}
    (h : Optimizer.generationStep closes gen st pop hist g = some out) :
    out.1.best_score = st.best_score ∨ F.ltB st.best_score out.1.best_score = true := by
  unfold Optimizer.generationStep at h
  cases hs : Optimizer.evalScores closes pop with
  | none => rw [hs] at h; simp at h
  | some scores =>
  rw [hs] at h
  simp only [Option.bind_eq_bind', Option.some_bind] at h
  cases ht : (Optimizer.sortScores scores).head? with
  | none => rw [ht] at h; simp at h
  | some top =>
  rw [ht] at h
  simp only [Option.bind_eq_bind', Option.some_bind] at h
  cases hr : Optimizer.refill ((Optimizer.sortScores scores).take 5)
      (10 - (((Optimizer.sortScores scores).take 2).map Prod.snd).length) g with
  | none => rw [hr] at h; simp at h
  | some chg =>
  rw [hr] at h
  simp only [Option.bind_eq_bind', Option.some_bind, Option.pure_def,
    Option.some.injEq] at h
  subst h
  by_cases hc : F.ltB st.best_score top.1 = true
  · simp only [hc, if_true, Optimizer.save_dna]
    exact Or.inr trivial
  · simp only [hc, if_false]
    exact Or.inl rfl

theorem simLoop_best {closes : List ℚ} :
    ∀ (gens gen : ℕ) (st : OptState) (pop : List Params) (hist : List GenRecord)
      (g : Rng) (out : OptState × List GenRecord × Rng),
      Optimizer.simLoop closes gens gen st pop hist g = some out →
      out.1.best_score = st.best_score ∨ F.ltB st.best_score out.1.best_score = true := by
  intro gens
  induction gens with
  | zero =>
    intro gen st pop hist g out h
    simp only [Optimizer.simLoop, Option.some.injEq] at h
    exact Or.inl (by rw [← h])
  | succ n ih =>
    intro gen st pop hist g out h
    unfold Optimizer.simLoop at h
    cases hg : Optimizer.generationStep closes gen st pop hist g with
    | none => rw [hg] at h; simp at h
    | some mid =>
    rw [hg] at h
    obtain ⟨mst, mpop, mhist, mg⟩ := mid
    simp only [Option.bind_eq_bind', Option.some_bind] at h
    have h1 := generationStep_best hg
    have h2 := ih _ _ _ _ _ _ h
    simp only at h1 h2
    rcases h1 with e1 | l1 <;> rcases h2 with e2 | l2
    · exact Or.inl (e2.trans e1)
    · exact Or.inr (e1 ▸ l2)
    · exact Or.inr (e2 ▸ l1)
    · exact Or.inr (F.ltB_trans l1 l2)

/-- C4: across one `run_simulation` invocation the in-memory best either
improves or holds: `best_score` is replaced only when a generation's top
fitness strictly exceeds it, so the final `best_score` is never below the
value before the run. -/
theorem claim_C4_monotonic (st : OptState) (closes : List ℚ) (gens : ℕ)
    (g : Rng) (ret : Option Params) (st' : OptState)
    (h : Optimizer.run_simulation st closes gens g = some (ret, st')) :
    st'.best_score = st.best_score ∨ F.ltB st.best_score st'.best_score = true := by
  unfold Optimizer.run_simulation at h
  by_cases he : closes.isEmpty
  · rw [if_pos he] at h
    simp only [Option.some.injEq, Prod.mk.injEq] at h
    exact Or.inl (by rw [← h.2])
  · rw [if_neg he] at h
    cases hp : Optimizer.popInit st.best_params 10 g with
    | none => rw [hp] at h; simp at h
    | some pg =>
    rw [hp] at h
    obtain ⟨pop, g1⟩ := pg
    simp only [Option.bind_eq_bind', Option.some_bind] at h
    cases hl : Optimizer.simLoop closes gens 0 st pop [] g1 with
    | none => rw [hl] at h; simp at h
    | some out =>
    rw [hl] at h
    obtain ⟨sst, shist, sg⟩ := out
    simp only [Option.bind_eq_bind', Option.some_bind, Option.pure_def,
      Option.some.injEq, Prod.mk.injEq] at h
    have hb := simLoop_best gens 0 st pop [] g1 (sst, shist, sg) hl
    rw [← h.2]
    simpa using hb

theorem claim_C4_witness :
    Optimizer.run_simulation (Optimizer.init none none) [] 3 rngQuiet =
      some (none, Optimizer.init none none) ∧
    ((Optimizer.init none none).best_score = (Optimizer.init none none).best_score ∨
      F.ltB (Optimizer.init none none).best_score (Optimizer.init none none).best_score =
        true) :=
  ⟨rfl, claim_C4_monotonic (Optimizer.init none none) [] 3 rngQuiet none
    (Optimizer.init none none) rfl⟩

/-- C10: after construction `best_score` is −1000.0 whether or not the DNA
file loaded, and the persisted score is never read back: any generation
whose top fitness exceeds −1000 overwrites both the in-memory best and the
persisted best parameters with that generation's top individual. -/
theorem claim_C10_init_best (fs : Option Params)
    (h0 : Option (Params × F × List GenRecord)) (closes : List ℚ)
    (pop : List Params) (hist : List GenRecord) (gen : ℕ) (g : Rng)
    (l : List (F × Params)) (f : F) (p : Params)
    (hs : Optimizer.evalScores closes pop = some l)
    (hh : (Optimizer.sortScores l).head? = some (f, p))
    (hf : F.ltB (F.rat (-1000)) f = true) :
    (Optimizer.init fs h0).best_score = F.rat (-1000) ∧
    (Optimizer.generationStep closes gen (Optimizer.init fs h0) pop hist g).map
        (fun out => (out.1.best_params, out.1.best_score, out.1.dna_file)) =
      (Optimizer.generationStep closes gen (Optimizer.init fs h0) pop hist g).map
        (fun _ => (p, f, some p)) := by
  refine ⟨rfl, ?_⟩
  unfold Optimizer.generationStep
  rw [hs]
  simp only [Option.bind_eq_bind', Option.some_bind]
  rw [hh]
  simp only [Option.bind_eq_bind', Option.some_bind]
  rw [if_pos (show F.ltB (Optimizer.init fs h0).best_score (f, p).1 = true from hf)]
  cases Optimizer.refill ((Optimizer.sortScores l).take 5)
      (10 - (((Optimizer.sortScores l).take 2).map Prod.snd).length) g with
  | none => rfl
  | some chg => rfl

theorem claim_C10_witness :
    (Optimizer.init none none).best_score = F.rat (-1000) ∧
    (Optimizer.generationStep [] 0 (Optimizer.init none none) [defaultDNA] [] rngQuiet).map
        (fun out => (out.1.best_params, out.1.best_score, out.1.dna_file)) =
      (Optimizer.generationStep [] 0 (Optimizer.init none none) [defaultDNA] [] rngQuiet).map
        (fun _ => (defaultDNA, F.rat 0, some defaultDNA)) ∧
    (Optimizer.generationStep [] 0 (Optimizer.init none none) [defaultDNA] [] rngQuiet).isSome =
      true :=
  ⟨(claim_C10_init_best none none [] [defaultDNA] [] 0 rngQuiet
      [(F.rat 0, defaultDNA)] (F.rat 0) defaultDNA
      (by with_unfolding_all decide) (by with_unfolding_all decide)
      (by with_unfolding_all decide)).1,
   (claim_C10_init_best none none [] [defaultDNA] [] 0 rngQuiet
      [(F.rat 0, defaultDNA)] (F.rat 0) defaultDNA
      (by with_unfolding_all decide) (by with_unfolding_all decide)
      (by with_unfolding_all decide)).2,
   by with_unfolding_all decide⟩

theorem barScore_isSome {price : ℚ} {cols : Cols} {params : Params} {i : ℕ}
    (hR : (dictGet params "strategy_RSI").isSome = true)
    (hb : (dictGet params "rsi_buy").isSome = true)
    (hs : (dictGet params "rsi_sell").isSome = true)
    (hM : (dictGet params "strategy_MA").isSome = true)
    (hB : (dictGet params "strategy_BB").isSome = true)
    (hbb : ∀ v, dictGet params "strategy_BB" = some v → v.truthy = true →
      cols.bb.isSome = true) :
    (barScore price cols params i).isSome = true := by
  obtain ⟨vR, hvR⟩ := Option.isSome_iff_exists.1 hR
  obtain ⟨vb, hvb⟩ := Option.isSome_iff_exists.1 hb
  obtain ⟨vs, hvs⟩ := Option.isSome_iff_exists.1 hs
  obtain ⟨vM, hvM⟩ := Option.isSome_iff_exists.1 hM
  obtain ⟨vB, hvB⟩ := Option.isSome_iff_exists.1 hB
  simp only [barScore, hvR, hvb, hvs, hvM, hvB]
  by_cases htr : vB.truthy = true
  · obtain ⟨bb, hbb2⟩ := Option.isSome_iff_exists.1 (hbb vB hvB htr)
    simp only [htr, hbb2, if_true]
    split
    next heq => (repeat' split at heq) <;> simp_all
    next s1 heq => simp
  · rw [Bool.not_eq_true] at htr
    simp only [htr, Bool.false_eq_true, if_false]
    split
    next heq => (repeat' split at heq) <;> simp_all
    next s1 heq => simp

theorem computeIndicators_bb {closes : List ℚ} {params : Params} {cols : Cols}
    (h : computeIndicators closes params = some cols) (v : PVal)
    (hv : dictGet params "strategy_BB" = some v) (htr : v.truthy = true) :
    cols.bb.isSome = true := by
  unfold computeIndicators at h
  (repeat' split at h) <;> (try cases h) <;> simp_all

theorem tradeLoop_isSome {closes : List ℚ} {cols : Cols} {params : Params}
    (hsc : ∀ price i, (barScore price cols params i).isSome = true) :
    ∀ (l : List ℕ) (st : F × F), (∀ i ∈ l, i < closes.length) →
      (l.foldlM (tradeStep closes cols params) st).isSome = true := by
  intro l
  induction l with
  | nil => intro st _; rfl
  | cons a as ih =>
    intro st hmem
    have ha : a < closes.length := hmem a (List.mem_cons_self a as)
    obtain ⟨c, hp⟩ : ∃ c, closes[a]? = some c := ⟨_, List.getElem?_eq_getElem ha⟩
    obtain ⟨s, hscr⟩ := Option.isSome_iff_exists.1 (hsc c a)
    rw [List.foldlM_cons]
    unfold tradeStep
    simp only [hp, hscr, Option.bind_eq_bind', Option.some_bind]
    exact ih _ (fun i hi => hmem i (List.mem_cons_of_mem a hi))

/-- C2: for every price series and every StrategyParameters dict carrying
the fixed key schema, `_backtest` never propagates an exception, and any
failure of the indicator precomputation is caught and mapped to the fixed
−100 penalty. -/
theorem claim_C2_no_exception (closes : List ℚ) (params : Params)
    (hk : hasAllKeysB params = true) :
    (Optimizer.backtest closes params).isSome = true ∧
    (computeIndicators closes params = none →
      Optimizer.backtest closes params = some (F.rat (-100))) := by
  have hkeys := hk
  simp only [hasAllKeysB, List.all_cons, List.all_nil, Bool.and_eq_true,
    Bool.and_true, and_true] at hkeys
  obtain ⟨k1, k2, k3, k4, k5, k6, k7, k8, k9, k10⟩ := hkeys
  constructor
  · cases hc : computeIndicators closes params with
    | none => simp [Optimizer.backtest, hc]
    | some cols =>
      have hsc : ∀ price i, (barScore price cols params i).isSome = true :=
        fun price i => barScore_isSome k1 k5 k6 k2 k3
          (fun v hv htr => computeIndicators_bb hc v hv htr)
      have hfold := tradeLoop_isSome hsc ((List.range closes.length).drop 50)
        (F.rat 10000, F.rat 0)
        (fun i hi => List.mem_range.1 (List.drop_subset _ _ hi))
      obtain ⟨st, hst⟩ := Option.isSome_iff_exists.1 hfold
      by_cases hpos : F.ltB (F.rat 0) st.2 = true
      · have hne : closes ≠ [] := by
          intro he
          subst he
          simp only [List.length_nil, List.range_zero, List.drop_nil,
            List.foldlM_nil, Option.pure_def, Option.some.injEq] at hst
          rw [← hst] at hpos
          simp [F.ltB] at hpos
        obtain ⟨last, hlast⟩ :=
          Option.isSome_iff_exists.1 (List.getLast?_isSome.2 hne)
        simp [Optimizer.backtest, hc, hst, hpos, hlast]
      · rw [Bool.not_eq_true] at hpos
        simp [Optimizer.backtest, hc, hst, hpos]
  · intro hnone
    simp [Optimizer.backtest, hnone]

theorem claim_C2_witness :
    (Optimizer.backtest shortSeries defaultDNA).isSome = true ∧
    Optimizer.backtest shortSeries badWindowParams = some (F.rat (-100)) :=
  ⟨(claim_C2_no_exception shortSeries defaultDNA (by decide)).1,
   (claim_C2_no_exception shortSeries badWindowParams (by decide)).2
     (by with_unfolding_all decide)⟩


theorem tradeLoop_money {closes : List ℚ} {cols : Cols} {params : Params}
    (hpos : ∀ c ∈ closes, 0 < c)
    (hsc : ∀ price i, (barScore price cols params i).isSome = true) :
    ∀ (l : List ℕ) (st : F × F), (∀ i ∈ l, i < closes.length) → moneyInv st →
      ∃ st', l.foldlM (tradeStep closes cols params) st = some st' ∧ moneyInv st' := by
  intro l
  induction l with
  | nil => intro st _ hinv; exact ⟨st, rfl, hinv⟩
  | cons a as ih =>
    intro st hmem hinv
    have ha : a < closes.length := hmem a (List.mem_cons_self a as)
    obtain ⟨c, hp⟩ : ∃ c, closes[a]? = some c := ⟨_, List.getElem?_eq_getElem ha⟩
    have hcpos : 0 < c := hpos c (List.getElem?_mem hp)
    obtain ⟨s, hscr⟩ := Option.isSome_iff_exists.1 (hsc c a)
    rw [List.foldlM_cons]
    unfold tradeStep
    simp only [hp, hscr, Option.bind_eq_bind', Option.some_bind]
    apply ih _ (fun i hi => hmem i (List.mem_cons_of_mem a hi))
    rcases hinv with ⟨cap, hcap, rfl⟩ | ⟨pos, hpp, rfl⟩
    · by_cases hbuy : decide ((3 : ℚ)/2 ≤ s) = true
      · have : F.eqB (F.rat cap, F.rat 0).2 (F.rat 0) = true := by simp [F.eqB]
        rw [hbuy, this]
        simp only [Bool.and_self, if_true]
        right
        refine ⟨cap / c, div_pos hcap hcpos, ?_⟩
        simp [F.div, ne_of_gt hcpos]
      · rw [Bool.not_eq_true] at hbuy
        rw [hbuy]
        simp only [Bool.false_and, Bool.if_false_left]
        have : F.ltB (F.rat 0) (F.rat cap, F.rat 0).2 = false := by simp [F.ltB]
        rw [this]
        simp only [Bool.and_false, if_false]
        exact Or.inl ⟨cap, hcap, rfl⟩
    · have he : F.eqB (F.rat 0, F.rat pos).2 (F.rat 0) = true ↔ False := by
        simp [F.eqB]
        exact ne_of_gt hpp
      have he2 : F.eqB (F.rat 0, F.rat pos).2 (F.rat 0) = false := by
        simp [F.eqB]
        exact ne_of_gt hpp
      rw [he2]
      simp only [Bool.and_false, if_false]
      have hl : F.ltB (F.rat 0) (F.rat 0, F.rat pos).2 = true := by
        simp [F.ltB]
        exact hpp
      rw [hl]
      by_cases hsell : decide (s ≤ -((3 : ℚ)/2)) = true
      · rw [hsell]
        simp only [Bool.and_self, if_true]
        left
        refine ⟨pos * c, mul_pos hpp hcpos, ?_⟩
        simp [F.mul]
      · rw [Bool.not_eq_true] at hsell
        rw [hsell]
        simp only [Bool.false_and, if_false]
        exact Or.inr ⟨pos, hpp, rfl⟩

/-- C8 amended: for every StrategyParameters dict (fixed key schema) with
rsi_buy < rsi_sell and ma_short < ma_long, `_backtest` on a series of
length ≥ 100 with positive closes returns a finite rational fitness.
(Positivity of the closes is what the proof needs; a zero close at a buy
bar makes the result +inf, see the counterexample.) -/
theorem claim_C8_amended (closes : List ℚ) (params : Params)
    (hk : hasAllKeysB params = true) (hlen : 100 ≤ closes.length)
    (hpos : ∀ c ∈ closes, 0 < c)
    (hbs : ((dictGet params "rsi_buy").getD (.i 0)).toInt <
      ((dictGet params "rsi_sell").getD (.i 0)).toInt)
    (hma : ((dictGet params "ma_short").getD (.i 0)).toInt <
      ((dictGet params "ma_long").getD (.i 0)).toInt) :
    ∃ q : ℚ, Optimizer.backtest closes params = some (F.rat q) := by
  have hkeys := hk
  simp only [hasAllKeysB, List.all_cons, List.all_nil, Bool.and_eq_true,
    Bool.and_true, and_true] at hkeys
  obtain ⟨k1, k2, k3, k4, k5, k6, k7, k8, k9, k10⟩ := hkeys
  cases hc : computeIndicators closes params with
  | none => exact ⟨-100, by simp [Optimizer.backtest, hc]⟩
  | some cols =>
    have hsc : ∀ price i, (barScore price cols params i).isSome = true :=
      fun price i => barScore_isSome k1 k5 k6 k2 k3
        (fun v hv htr => computeIndicators_bb hc v hv htr)
    obtain ⟨st, hst, hinv⟩ := tradeLoop_money hpos hsc
      ((List.range closes.length).drop 50) (F.rat 10000, F.rat 0)
      (fun i hi => List.mem_range.1 (List.drop_subset _ _ hi))
      (Or.inl ⟨10000, by norm_num, rfl⟩)
    have hne : closes ≠ [] := by
      intro he
      rw [he] at hlen
      simp at hlen
    obtain ⟨last, hlast⟩ :=
      Option.isSome_iff_exists.1 (List.getLast?_isSome.2 hne)
    rcases hinv with ⟨cap, hcap, rfl⟩ | ⟨pos, hpp, rfl⟩
    · have hl : F.ltB (F.rat 0) (F.rat cap, F.rat 0).2 = false := by simp [F.ltB]
      refine ⟨(cap + -10000) / 10000 * 100, ?_⟩
      simp only [Optimizer.backtest, hc, hst, hl, Bool.false_eq_true, if_false]
      simp [F.sub, F.add, F.neg, F.div, F.mul]
    · have hl : F.ltB (F.rat 0) (F.rat 0, F.rat pos).2 = true := by
        simp [F.ltB]
        exact hpp
      refine ⟨(0 + pos * last + -10000) / 10000 * 100, ?_⟩
      simp only [Optimizer.backtest, hc, hst, hl, if_true, hlast]
      simp [F.sub, F.add, F.neg, F.div, F.mul]


theorem claim_C8_witness :
    Optimizer.backtest posSeries defaultDNA = some (F.rat 0) ∧
    (Optimizer.backtest posSeries defaultDNA).isSome = true := by
  have h := claim_C8_amended posSeries defaultDNA (by decide) (by decide)
    (by decide) (by decide) (by decide)
  refine ⟨by with_unfolding_all decide, ?_⟩
  obtain ⟨q, hq⟩ := h
  simp [hq]

theorem tradeStep_spec {closes : List ℚ} {cols : Cols} {params : Params}
    {i : ℕ} {st : F × F} {c : ℚ} {s : ℚ}
    (hp : closes[i]? = some c)
    (hscr : barScore c cols params i = some s) :
    tradeStep closes cols params st i =
      some (specTradeStep
        (fun j => ((closes[j]?).bind (fun pr => barScore pr cols params j)).getD 0)
        (fun j => (closes[j]?).getD 0) st i) := by
  unfold tradeStep specTradeStep
  simp only [hp, hscr, Option.some_bind, Option.getD_some]
  by_cases hA : decide ((3 : ℚ)/2 ≤ s) = true
  · by_cases hB : F.eqB st.2 (F.rat 0) = true
    · have hs2 : decide (s ≤ -((3 : ℚ)/2)) = false := by
        simp only [decide_eq_true_eq] at hA
        simp only [decide_eq_false_iff_not]
        intro hcon
        linarith
      rw [hA, hB, hs2]
      simp
    · rw [Bool.not_eq_true] at hB
      have hs2 : decide (s ≤ -((3 : ℚ)/2)) = false := by
        simp only [decide_eq_true_eq] at hA
        simp only [decide_eq_false_iff_not]
        intro hcon
        linarith
      rw [hA, hB, hs2]
      simp
  · rw [Bool.not_eq_true] at hA
    rw [hA]
    simp

theorem tradeLoop_spec {closes : List ℚ} {cols : Cols} {params : Params}
    (hsc : ∀ price i, (barScore price cols params i).isSome = true) :
    ∀ (l : List ℕ) (st : F × F), (∀ i ∈ l, i < closes.length) →
      l.foldlM (tradeStep closes cols params) st =
        some (l.foldl (specTradeStep
          (fun j => ((closes[j]?).bind (fun pr => barScore pr cols params j)).getD 0)
          (fun j => (closes[j]?).getD 0)) st) := by
  intro l
  induction l with
  | nil => intro st _; rfl
  | cons a as ih =>
    intro st hmem
    have ha : a < closes.length := hmem a (List.mem_cons_self a as)
    obtain ⟨c, hp⟩ : ∃ c, closes[a]? = some c := ⟨_, List.getElem?_eq_getElem ha⟩
    obtain ⟨s, hscr⟩ := Option.isSome_iff_exists.1 (hsc c a)
    rw [List.foldlM_cons, List.foldl_cons, tradeStep_spec hp hscr]
    simp only [Option.bind_eq_bind', Option.some_bind]
    exact ih _ (fun i hi => hmem i (List.mem_cons_of_mem a hi))

/-- C1 amended: for every price series and StrategyParameters dict (fixed
key schema) whose indicator precomputation succeeds, `_backtest` equals
the claim's all-in/all-out trading machine over the per-bar scores, with
the amended liquidation that drops a non-positive share position:
fitness = (cash + (shares·last close if shares > 0 else 0) − 10000)
/ 10000 × 100. -/
theorem claim_C1_amended (closes : List ℚ) (params : Params) (cols : Cols)
    (hk : hasAllKeysB params = true)
    (hc : computeIndicators closes params = some cols) :
    Optimizer.backtest closes params =
      some (amendedFitness
        (fun j => ((closes[j]?).bind (fun pr => barScore pr cols params j)).getD 0)
        (fun j => (closes[j]?).getD 0) closes.length) := by
  have hkeys := hk
  simp only [hasAllKeysB, List.all_cons, List.all_nil, Bool.and_eq_true,
    Bool.and_true, and_true] at hkeys
  obtain ⟨k1, k2, k3, k4, k5, k6, k7, k8, k9, k10⟩ := hkeys
  have hsc : ∀ price i, (barScore price cols params i).isSome = true :=
    fun price i => barScore_isSome k1 k5 k6 k2 k3
      (fun v hv htr => computeIndicators_bb hc v hv htr)
  have hfold := tradeLoop_spec hsc ((List.range closes.length).drop 50)
    (F.rat 10000, F.rat 0)
    (fun i hi => List.mem_range.1 (List.drop_subset _ _ hi))
  unfold amendedFitness specFinalState
  set sc : ℕ → ℚ :=
    fun j => ((closes[j]?).bind (fun pr => barScore pr cols params j)).getD 0 with hsc2
  set cat : ℕ → ℚ := fun j => (closes[j]?).getD 0 with hcat
  set stf := ((List.range closes.length).drop 50).foldl (specTradeStep sc cat)
    (F.rat 10000, F.rat 0) with hstf
  by_cases hpos : F.ltB (F.rat 0) stf.2 = true
  · have hne : closes ≠ [] := by
      intro he
      subst he
      simp only [List.length_nil, List.range_zero, List.drop_nil,
        List.foldl_nil] at hstf
      rw [hstf] at hpos
      simp [F.ltB] at hpos
    obtain ⟨last, hlast⟩ :=
      Option.isSome_iff_exists.1 (List.getLast?_isSome.2 hne)
    have hlast2 : cat (closes.length - 1) = last := by
      rw [hcat]
      simp only []
      rw [← List.getLast?_eq_getElem?] at *
      rw [hlast]
      rfl
    simp only [Optimizer.backtest, hc, hfold, hpos, if_true, hlast, hlast2]
  · rw [Bool.not_eq_true] at hpos
    simp only [Optimizer.backtest, hc, hfold, hpos, Bool.false_eq_true, if_false]

theorem claim_C1_witness :
    Optimizer.backtest shortSeries defaultDNA =
      some (amendedFitness
        (fun j => ((shortSeries[j]?).bind
          (fun pr => barScore pr colsShort defaultDNA j)).getD 0)
        (fun j => (shortSeries[j]?).getD 0) shortSeries.length) :=
  claim_C1_amended shortSeries defaultDNA colsShort (by decide)
    (by with_unfolding_all decide)

theorem dictGet_dictSet_self (p : Params) (k : String) (v : PVal) :
    dictGet (dictSet p k v) k = some v := by
  induction p with
  | nil => simp [dictSet, dictGet]
  | cons hd t ih =>
    obtain ⟨k1, v1⟩ := hd
    by_cases hk : k1 = k
    · simp [dictSet, dictGet, hk]
    · simp [dictSet, dictGet, hk, ih]

theorem dictGet_dictSet_ne (p : Params) (k k2 : String) (v : PVal)
    (h : k ≠ k2) : dictGet (dictSet p k v) k2 = dictGet p k2 := by
  induction p with
  | nil => simp [dictSet, dictGet, h]
  | cons hd t ih =>
    obtain ⟨k1, v1⟩ := hd
    by_cases hk : k1 = k
    · subst hk
      simp [dictSet, dictGet, h]
    · by_cases hk2 : k1 = k2
      · simp [dictSet, dictGet, hk, hk2, Ne.symm h]
      · simp [dictSet, dictGet, hk, hk2, ih]

theorem Rng.randInt_mem (g : Rng) (a b : ℤ) (hab : a ≤ b) :
    a ≤ (g.randInt a b).1 ∧ (g.randInt a b).1 ≤ b := by
  unfold Rng.randInt
  have h1 : 0 ≤ ((g.ints g.ii : ℤ)) % (b - a + 1) :=
    Int.emod_nonneg _ (by omega)
  have h2 : ((g.ints g.ii : ℤ)) % (b - a + 1) < b - a + 1 :=
    Int.emod_lt_of_pos _ (by omega)
  constructor <;> simp only [] <;> omega

theorem mutateNum_get_self (p : Params) (key : String) (lo hi : ℤ) (g : Rng)
    (hab : lo ≤ hi) :
    dictGet (Optimizer.mutateNum p key lo hi g).1 key = dictGet p key ∨
    ∃ m : ℤ, lo ≤ m ∧ m ≤ hi ∧
      dictGet (Optimizer.mutateNum p key lo hi g).1 key = some (.i m) := by
  simp only [Optimizer.mutateNum]
  split
  · right
    obtain ⟨h1, h2⟩ := Rng.randInt_mem _ lo hi hab
    exact ⟨_, h1, h2, dictGet_dictSet_self _ _ _⟩
  · left; rfl

theorem mutateNum_get_other (p : Params) (key k2 : String) (lo hi : ℤ)
    (g : Rng) (h : key ≠ k2) :
    dictGet (Optimizer.mutateNum p key lo hi g).1 k2 = dictGet p k2 := by
  simp only [Optimizer.mutateNum]
  split
  · exact dictGet_dictSet_ne _ _ _ _ h
  · rfl

theorem mutate_key_facts (p : Params) (g : Rng) (out : Params × Rng)
    (h : Optimizer.mutate p g = some out) :
    ((∃ m : ℤ, 5 ≤ m ∧ m ≤ 30 ∧ dictGet out.1 "rsi_window" = some (.i m)) ∨
      dictGet out.1 "rsi_window" = dictGet p "rsi_window") ∧
    ((∃ m : ℤ, 10 ≤ m ∧ m ≤ 40 ∧ dictGet out.1 "rsi_buy" = some (.i m)) ∨
      dictGet out.1 "rsi_buy" = dictGet p "rsi_buy") ∧
    ((∃ m : ℤ, 60 ≤ m ∧ m ≤ 90 ∧ dictGet out.1 "rsi_sell" = some (.i m)) ∨
      dictGet out.1 "rsi_sell" = dictGet p "rsi_sell") ∧
    ((∃ m : ℤ, 5 ≤ m ∧ m ≤ 50 ∧ dictGet out.1 "ma_short" = some (.i m)) ∨
      dictGet out.1 "ma_short" = dictGet p "ma_short") ∧
    ((∃ m : ℤ, 50 ≤ m ∧ m ≤ 200 ∧ dictGet out.1 "ma_long" = some (.i m)) ∨
      dictGet out.1 "ma_long" = dictGet p "ma_long") ∧
    dictGet out.1 "bb_window" = dictGet p "bb_window" := by
  have step : ∀ k2, k2 ≠ "strategy_BB" →
      dictGet out.1 k2 =
        dictGet (Optimizer.mutateNum (Optimizer.mutateNum (Optimizer.mutateNum
          (Optimizer.mutateNum (Optimizer.mutateNum p "rsi_window" 5 30 g).1
            "rsi_buy" 10 40 (Optimizer.mutateNum p "rsi_window" 5 30 g).2).1
            "rsi_sell" 60 90 (Optimizer.mutateNum (Optimizer.mutateNum p
              "rsi_window" 5 30 g).1 "rsi_buy" 10 40
              (Optimizer.mutateNum p "rsi_window" 5 30 g).2).2).1
            "ma_short" 5 50 (Optimizer.mutateNum (Optimizer.mutateNum
              (Optimizer.mutateNum p "rsi_window" 5 30 g).1 "rsi_buy" 10 40
              (Optimizer.mutateNum p "rsi_window" 5 30 g).2).1 "rsi_sell" 60 90
              (Optimizer.mutateNum (Optimizer.mutateNum p "rsi_window" 5 30 g).1
                "rsi_buy" 10 40
                (Optimizer.mutateNum p "rsi_window" 5 30 g).2).2).2).1
            "ma_long" 50 200 (Optimizer.mutateNum (Optimizer.mutateNum
              (Optimizer.mutateNum (Optimizer.mutateNum p "rsi_window" 5 30 g).1
                "rsi_buy" 10 40 (Optimizer.mutateNum p "rsi_window" 5 30 g).2).1
              "rsi_sell" 60 90 (Optimizer.mutateNum (Optimizer.mutateNum p
                "rsi_window" 5 30 g).1 "rsi_buy" 10 40
                (Optimizer.mutateNum p "rsi_window" 5 30 g).2).2).1 "ma_short" 5
              50 (Optimizer.mutateNum (Optimizer.mutateNum (Optimizer.mutateNum
                p "rsi_window" 5 30 g).1 "rsi_buy" 10 40
                (Optimizer.mutateNum p "rsi_window" 5 30 g).2).1 "rsi_sell" 60
                90 (Optimizer.mutateNum (Optimizer.mutateNum p "rsi_window" 5 30
                  g).1 "rsi_buy" 10 40
                  (Optimizer.mutateNum p "rsi_window" 5 30 g).2).2).2).2).1 k2 := by
    intro k2 hk2
    simp only [Optimizer.mutate] at h
    split at h
    · split at h
      · exact absurd h (by simp)
      · simp only [Option.some.injEq] at h
        rw [← h]
        exact dictGet_dictSet_ne _ _ _ _ (Ne.symm hk2)
    · simp only [Option.some.injEq] at h
      rw [← h]
  refine ⟨?_, ?_, ?_, ?_, ?_, ?_⟩
  · rw [step _ (by decide), mutateNum_get_other _ _ _ _ _ _ (by decide),
      mutateNum_get_other _ _ _ _ _ _ (by decide),
      mutateNum_get_other _ _ _ _ _ _ (by decide),
      mutateNum_get_other _ _ _ _ _ _ (by decide)]
    rcases mutateNum_get_self p "rsi_window" 5 30 g (by norm_num) with h1 | ⟨m, h1, h2, h3⟩
    · exact Or.inr h1
    · exact Or.inl ⟨m, h1, h2, h3⟩
  · rw [step _ (by decide), mutateNum_get_other _ _ _ _ _ _ (by decide),
      mutateNum_get_other _ _ _ _ _ _ (by decide),
      mutateNum_get_other _ _ _ _ _ _ (by decide)]
    rcases mutateNum_get_self _ "rsi_buy" 10 40 _ (by norm_num) with h1 | ⟨m, h1, h2, h3⟩
    · rw [h1, mutateNum_get_other _ _ _ _ _ _ (by decide)]
      exact Or.inr rfl
    · exact Or.inl ⟨m, h1, h2, h3⟩
  · rw [step _ (by decide), mutateNum_get_other _ _ _ _ _ _ (by decide),
      mutateNum_get_other _ _ _ _ _ _ (by decide)]
    rcases mutateNum_get_self _ "rsi_sell" 60 90 _ (by norm_num) with h1 | ⟨m, h1, h2, h3⟩
    · rw [h1, mutateNum_get_other _ _ _ _ _ _ (by decide),
        mutateNum_get_other _ _ _ _ _ _ (by decide)]
      exact Or.inr rfl
    · exact Or.inl ⟨m, h1, h2, h3⟩
  · rw [step _ (by decide), mutateNum_get_other _ _ _ _ _ _ (by decide)]
    rcases mutateNum_get_self _ "ma_short" 5 50 _ (by norm_num) with h1 | ⟨m, h1, h2, h3⟩
    · rw [h1, mutateNum_get_other _ _ _ _ _ _ (by decide),
        mutateNum_get_other _ _ _ _ _ _ (by decide),
        mutateNum_get_other _ _ _ _ _ _ (by decide)]
      exact Or.inr rfl
    · exact Or.inl ⟨m, h1, h2, h3⟩
  · rcases mutateNum_get_self _ "ma_long" 50 200 _ (by norm_num) with h1 | ⟨m, h1, h2, h3⟩
    · rw [step _ (by decide), h1, mutateNum_get_other _ _ _ _ _ _ (by decide),
        mutateNum_get_other _ _ _ _ _ _ (by decide),
        mutateNum_get_other _ _ _ _ _ _ (by decide),
        mutateNum_get_other _ _ _ _ _ _ (by decide)]
      exact Or.inr rfl
    · rw [step _ (by decide)]
      exact Or.inl ⟨m, h1, h2, h3⟩
  · rw [step _ (by decide), mutateNum_get_other _ _ _ _ _ _ (by decide),
      mutateNum_get_other _ _ _ _ _ _ (by decide),
      mutateNum_get_other _ _ _ _ _ _ (by decide),
      mutateNum_get_other _ _ _ _ _ _ (by decide),
      mutateNum_get_other _ _ _ _ _ _ (by decide)]

/-- C5 amended: for every parameter dict whose numeric values lie inside
the declared mutation domains (and bb_window ≥ 2), every outcome of
`_mutate` keeps rsi_buy < rsi_sell and all windows ≥ 2, but only
ma_short ≤ ma_long — the domains [5,50] and [50,200] meet at 50, so
mutation can produce ma_short = ma_long. -/
theorem claim_C5_amended (p : Params) (g : Rng) (out : Params × Rng)
    (hdom : inDomainsB p = true) (h : Optimizer.mutate p g = some out) :
    invariantWeakB out.1 = true := by
  obtain ⟨f1, f2, f3, f4, f5, f6⟩ := mutate_key_facts p g out h
  unfold inDomainsB at hdom
  split at hdom
  · rename_i rb rs ms ml rw bw hrb hrs hms hml hrw hbw
    simp only [Bool.and_eq_true, decide_eq_true_eq] at hdom
    obtain ⟨⟨⟨⟨⟨hrw2, hrb2⟩, hrs2⟩, hms2⟩, hml2⟩, hbw2⟩ := hdom
    have grw : ∃ m : ℤ, 5 ≤ m ∧ m ≤ 30 ∧
        dictGet out.1 "rsi_window" = some (.i m) := by
      rcases f1 with hf | hf
      · exact hf
      · exact ⟨rw, hrw2.1, hrw2.2, by rw [hf, hrw]⟩
    have grb : ∃ m : ℤ, 10 ≤ m ∧ m ≤ 40 ∧
        dictGet out.1 "rsi_buy" = some (.i m) := by
      rcases f2 with hf | hf
      · exact hf
      · exact ⟨rb, hrb2.1, hrb2.2, by rw [hf, hrb]⟩
    have grs : ∃ m : ℤ, 60 ≤ m ∧ m ≤ 90 ∧
        dictGet out.1 "rsi_sell" = some (.i m) := by
      rcases f3 with hf | hf
      · exact hf
      · exact ⟨rs, hrs2.1, hrs2.2, by rw [hf, hrs]⟩
    have gms : ∃ m : ℤ, 5 ≤ m ∧ m ≤ 50 ∧
        dictGet out.1 "ma_short" = some (.i m) := by
      rcases f4 with hf | hf
      · exact hf
      · exact ⟨ms, hms2.1, hms2.2, by rw [hf, hms]⟩
    have gml : ∃ m : ℤ, 50 ≤ m ∧ m ≤ 200 ∧
        dictGet out.1 "ma_long" = some (.i m) := by
      rcases f5 with hf | hf
      · exact hf
      · exact ⟨ml, hml2.1, hml2.2, by rw [hf, hml]⟩
    obtain ⟨mw, hw1, hw2, hw3⟩ := grw
    obtain ⟨mb, hb1, hb2, hb3⟩ := grb
    obtain ⟨msl, hs1, hs2, hs3⟩ := grs
    obtain ⟨mms, hm1, hm2, hm3⟩ := gms
    obtain ⟨mml, hl1, hl2, hl3⟩ := gml
    have gbw : dictGet out.1 "bb_window" = some (.i bw) := by rw [f6, hbw]
    unfold invariantWeakB
    rw [hb3, hs3, hm3, hl3, hw3, gbw]
    simp only [PVal.toInt, Bool.and_eq_true, decide_eq_true_eq]
    omega
  · exact absurd hdom (by simp)

theorem claim_C5_witness :
    inDomainsB defaultDNA = true ∧
    (Optimizer.mutate defaultDNA rngQuiet).map (fun o => invariantWeakB o.1) =
      some true := by
  refine ⟨by decide, ?_⟩
  have hsome : (Optimizer.mutate defaultDNA rngQuiet).isSome = true := by
    with_unfolding_all decide
  cases hm : Optimizer.mutate defaultDNA rngQuiet with
  | none => rw [hm] at hsome; simp at hsome
  | some o =>
    simp only [Option.map_some', Option.some.injEq]
    exact claim_C5_amended defaultDNA rngQuiet o (by decide) hm

theorem dictGet_some_of_mem_keys {p : Params} {k : String}
    (h : k ∈ dictKeys p) : ∃ v, dictGet p k = some v := by
  induction p with
  | nil => simp [dictKeys] at h
  | cons hd t ih =>
    obtain ⟨k1, v1⟩ := hd
    by_cases hk : k1 = k
    · exact ⟨v1, by simp [dictGet, hk]⟩
    · have : k ∈ dictKeys t := by
        simp [dictKeys] at h ⊢
        rcases h with h | h
        · exact absurd h.symm hk
        · exact h
      obtain ⟨v, hv⟩ := ih this
      exact ⟨v, by simp [dictGet, hk, hv]⟩

theorem dictGet_none_of_not_mem {p : Params} {k : String}
    (h : k ∉ dictKeys p) : dictGet p k = none := by
  induction p with
  | nil => rfl
  | cons hd t ih =>
    obtain ⟨k1, v1⟩ := hd
    have h1 : k1 ≠ k := by
      intro he
      refine h ?_
      simp only [dictKeys, List.map_cons, he]
      exact List.mem_cons_self _ _
    have h2 : k ∉ dictKeys t := by
      intro hm
      refine h ?_
      simp only [dictKeys, List.map_cons]
      exact List.mem_cons_of_mem _ hm
    simp [dictGet, h1, ih h2]

theorem dictGet_of_mem_nodup {p : Params} {k : String} {v : PVal}
    (hnd : (dictKeys p).Nodup) (h : (k, v) ∈ p) : dictGet p k = some v := by
  induction p with
  | nil => simp at h
  | cons hd t ih =>
    obtain ⟨k1, v1⟩ := hd
    simp only [dictKeys, List.map_cons, List.nodup_cons] at hnd
    rcases List.mem_cons.1 h with he | ht
    · cases he
      simp [dictGet]
    · have hk : k1 ≠ k := by
        intro he
        subst he
        exact hnd.1 (List.mem_map_of_mem Prod.fst ht)
      simp only [dictGet, hk, if_false]
      exact ih hnd.2 ht

theorem dictKeys_dictSet_fresh {p : Params} {k : String} (v : PVal)
    (h : k ∉ dictKeys p) : dictKeys (dictSet p k v) = dictKeys p ++ [k] := by
  induction p with
  | nil => rfl
  | cons hd t ih =>
    obtain ⟨k1, v1⟩ := hd
    have h1 : k1 ≠ k := by
      intro he
      refine h ?_
      simp only [dictKeys, List.map_cons, he]
      exact List.mem_cons_self _ _
    have h2 : k ∉ dictKeys t := by
      intro hm
      refine h ?_
      simp only [dictKeys, List.map_cons]
      exact List.mem_cons_of_mem _ hm
    simp [dictSet, dictKeys, h1]
    exact ih h2

theorem crossoverGo_spec (p2 : Params) :
    ∀ (entries child : Params) (g : Rng),
      (dictKeys child ++ dictKeys entries).Nodup →
      (∀ k ∈ dictKeys entries, k ∈ dictKeys p2) →
      ∃ c g2, Optimizer.crossoverGo p2 child entries g = some (c, g2) ∧
        dictKeys c = dictKeys child ++ dictKeys entries ∧
        (∀ k, k ∈ dictKeys child → dictGet c k = dictGet child k) ∧
        (∀ k v, (k, v) ∈ entries →
          dictGet c k = some v ∨ dictGet c k = dictGet p2 k) := by
  intro entries
  induction entries with
  | nil =>
    intro child g hnd _
    exact ⟨child, g, rfl, by simp [dictKeys], fun k _ => rfl, by simp⟩
  | cons hd rest ih =>
    intro child g hnd hsub
    obtain ⟨k, v1⟩ := hd
    have hkfresh : k ∉ dictKeys child := by
      intro hmem
      exact (List.nodup_append.1 hnd).2.2 hmem (by simp [dictKeys])
    have hnd2 : ∀ v : PVal,
        (dictKeys (dictSet child k v) ++ dictKeys rest).Nodup := by
      intro v
      rw [dictKeys_dictSet_fresh v hkfresh]
      have : dictKeys child ++ dictKeys ((k, v1) :: rest) =
          dictKeys child ++ k :: dictKeys rest := rfl
      rw [this] at hnd
      simpa [List.append_assoc, List.nodup_append, List.nodup_cons] using hnd
    have hsub2 : ∀ k2 ∈ dictKeys rest, k2 ∈ dictKeys p2 :=
      fun k2 hk2 => hsub k2 (by
        simp only [dictKeys, List.map_cons]
        exact List.mem_cons_of_mem _ hk2)
    have hmain : ∀ v : PVal, ∃ c g2,
        Optimizer.crossoverGo p2 (dictSet child k v) rest g.randFloat.2 =
          some (c, g2) ∧
        dictKeys c = dictKeys child ++ dictKeys ((k, v1) :: rest) ∧
        (∀ k2, k2 ∈ dictKeys child → dictGet c k2 = dictGet child k2) ∧
        (dictGet c k = some v) ∧
        (∀ k2 v2, (k2, v2) ∈ rest →
          dictGet c k2 = some v2 ∨ dictGet c k2 = dictGet p2 k2) := by
      intro v
      obtain ⟨c, g2, hgo, hkeys, hold, hrest⟩ :=
        ih (dictSet child k v) g.randFloat.2 (hnd2 v) hsub2
      refine ⟨c, g2, hgo, ?_, ?_, ?_, hrest⟩
      · rw [hkeys, dictKeys_dictSet_fresh v hkfresh]
        simp [dictKeys]
      · intro k2 hk2
        have hne : k ≠ k2 := by
          intro he
          subst he
          exact hkfresh hk2
        rw [hold k2 (by rw [dictKeys_dictSet_fresh v hkfresh]; exact
          List.mem_append_left _ hk2)]
        exact dictGet_dictSet_ne _ _ _ _ hne
      · rw [hold k (by rw [dictKeys_dictSet_fresh v hkfresh]; simp)]
        exact dictGet_dictSet_self _ _ _
    simp only [Optimizer.crossoverGo]
    by_cases hcoin : (1 : ℚ)/2 < (g.randFloat).1
    · rw [if_pos hcoin]
      obtain ⟨c, g2, hgo, hkeys, hold, hself, hrest⟩ := hmain v1
      refine ⟨c, g2, hgo, hkeys, hold, ?_⟩
      intro k2 v2 hmem
      rcases List.mem_cons.1 hmem with he | ht
      · cases he
        exact Or.inl hself
      · exact hrest k2 v2 ht
    · rw [if_neg hcoin]
      have hk2 : k ∈ dictKeys p2 := hsub k (by simp [dictKeys])
      obtain ⟨w, hw⟩ := dictGet_some_of_mem_keys hk2
      rw [hw]
      obtain ⟨c, g2, hgo, hkeys, hold, hself, hrest⟩ := hmain w
      refine ⟨c, g2, hgo, hkeys, hold, ?_⟩
      intro k2 v2 hmem
      rcases List.mem_cons.1 hmem with he | ht
      · cases he
        exact Or.inr (by rw [hself, hw])
      · exact hrest k2 v2 ht

/-- C6: for two parameter dicts where B carries every key of A (in
particular when they have the same keys) and A's keys are distinct (as a
dict's always are), `_crossover` succeeds and yields a child defined on
exactly A's keys, whose value at each key is A's value or B's value at
that key — never a blended or out-of-domain value. -/
theorem claim_C6_crossover (p1 p2 : Params) (g : Rng)
    (hnd : (dictKeys p1).Nodup) (hsub : ∀ k ∈ dictKeys p1, k ∈ dictKeys p2) :
    ∃ c g2, Optimizer.crossover p1 p2 g = some (c, g2) ∧
      dictKeys c = dictKeys p1 ∧
      ∀ k v, dictGet c k = some v →
        dictGet p1 k = some v ∨ dictGet p2 k = some v := by
  obtain ⟨c, g2, hgo, hkeys, _, hvals⟩ :=
    crossoverGo_spec p2 p1 [] g (by simpa [dictKeys] using hnd) hsub
  refine ⟨c, g2, hgo, by simpa [dictKeys] using hkeys, ?_⟩
  intro k v hget
  have hkc : k ∈ dictKeys c := by
    have := dictGet_none_of_not_mem (p := c) (k := k)
    by_contra hnk
    rw [this hnk] at hget
    exact Option.noConfusion hget
  have hkp1 : k ∈ dictKeys p1 := by
    rw [show dictKeys p1 = dictKeys c from by
      rw [hkeys]; simp [dictKeys]]
    exact hkc
  obtain ⟨v1, hv1mem⟩ : ∃ v1, (k, v1) ∈ p1 := by
    simp only [dictKeys, List.mem_map] at hkp1
    obtain ⟨⟨ka, va⟩, hmem, hfst⟩ := hkp1
    refine ⟨va, ?_⟩
    rw [show ka = k from hfst] at hmem
    exact hmem
  rcases hvals k v1 hv1mem with hcase | hcase
  · rw [hget] at hcase
    injection hcase with hv
    left
    rw [dictGet_of_mem_nodup hnd hv1mem, hv]
  · right
    rw [← hcase, hget]

theorem claim_C6_witness :
    (dictKeys defaultDNA).Nodup ∧
    (∃ c g2, Optimizer.crossover defaultDNA maOnlyParams rngQuiet = some (c, g2) ∧
      dictKeys c = dictKeys defaultDNA ∧
      ∀ k v, dictGet c k = some v →
        dictGet defaultDNA k = some v ∨ dictGet maOnlyParams k = some v) :=
  ⟨by decide,
   claim_C6_crossover defaultDNA maOnlyParams rngQuiet (by decide) (by decide)⟩

set_option maxHeartbeats 4000000 in
/-- The fully expanded live-path score expression, over its boolean atoms,
equals the sum of the individual gated rule contributions. -/
theorem liveScoreShape (tR tM b1 b2 a1 a2 a3 a4 surge : Bool) :
    (if surge then
        (if tM then
            (if a2 then
              (if a1 && a2 then
                  (if tR then (if b1 then (0:ℚ) + 1 else if b2 then 0 - 1 else 0) else 0) + 2
                else if a3 && a4 then
                  (if tR then (if b1 then (0:ℚ) + 1 else if b2 then 0 - 1 else 0) else 0) - 2
                else (if tR then (if b1 then (0:ℚ) + 1 else if b2 then 0 - 1 else 0) else 0)) + 1/2
            else
              (if a1 && a2 then
                  (if tR then (if b1 then (0:ℚ) + 1 else if b2 then 0 - 1 else 0) else 0) + 2
                else if a3 && a4 then
                  (if tR then (if b1 then (0:ℚ) + 1 else if b2 then 0 - 1 else 0) else 0) - 2
                else (if tR then (if b1 then (0:ℚ) + 1 else if b2 then 0 - 1 else 0) else 0)))
          else (if tR then (if b1 then (0:ℚ) + 1 else if b2 then 0 - 1 else 0) else 0)) + 3/2
      else
        (if tM then
            (if a2 then
              (if a1 && a2 then
                  (if tR then (if b1 then (0:ℚ) + 1 else if b2 then 0 - 1 else 0) else 0) + 2
                else if a3 && a4 then
                  (if tR then (if b1 then (0:ℚ) + 1 else if b2 then 0 - 1 else 0) else 0) - 2
                else (if tR then (if b1 then (0:ℚ) + 1 else if b2 then 0 - 1 else 0) else 0)) + 1/2
            else
              (if a1 && a2 then
                  (if tR then (if b1 then (0:ℚ) + 1 else if b2 then 0 - 1 else 0) else 0) + 2
                else if a3 && a4 then
                  (if tR then (if b1 then (0:ℚ) + 1 else if b2 then 0 - 1 else 0) else 0) - 2
                else (if tR then (if b1 then (0:ℚ) + 1 else if b2 then 0 - 1 else 0) else 0)))
          else (if tR then (if b1 then (0:ℚ) + 1 else if b2 then 0 - 1 else 0) else 0))) =
    (if tR && b1 then (1 : ℚ) else 0) +
    (if tR && !b1 && b2 then -1 else 0) +
    (if tM && a1 && a2 then 2 else 0) +
    (if tM && !(a1 && a2) && a3 && a4 then -2 else 0) +
    (if tM && a2 then 1/2 else 0) +
    (if surge then 3/2 else 0) := by
  cases tR <;> cases tM <;> cases b1 <;> cases b2 <;> cases a1 <;> cases a2 <;>
    cases a3 <;> cases a4 <;> cases surge <;> norm_num

/-- The live decision string is Buy exactly when the score is at least 3/2,
Sell exactly when it is at most -3/2, and Neutral exactly otherwise. -/
theorem decisionIff (score : ℚ) :
    ((if (3 : ℚ)/2 ≤ score then "Buy" else if score ≤ -((3 : ℚ)/2) then "Sell" else "Neutral") = "Buy"
        ↔ (3 : ℚ)/2 ≤ score) ∧
    ((if (3 : ℚ)/2 ≤ score then "Buy" else if score ≤ -((3 : ℚ)/2) then "Sell" else "Neutral") = "Sell"
        ↔ score ≤ -((3 : ℚ)/2)) ∧
    ((if (3 : ℚ)/2 ≤ score then "Buy" else if score ≤ -((3 : ℚ)/2) then "Sell" else "Neutral") = "Neutral"
        ↔ ¬((3 : ℚ)/2 ≤ score) ∧ ¬(score ≤ -((3 : ℚ)/2))) := by
  by_cases h1 : (3 : ℚ)/2 ≤ score
  · have h2 : ¬(score ≤ -((3 : ℚ)/2)) := by intro h; linarith
    rw [if_pos h1]
    exact ⟨⟨fun _ => h1, fun _ => rfl⟩,
      ⟨fun hc => absurd hc (by decide), fun hc => absurd hc h2⟩,
      ⟨fun hc => absurd hc (by decide), fun hc => absurd h1 hc.1⟩⟩
  · rw [if_neg h1]
    by_cases h2 : score ≤ -((3 : ℚ)/2)
    · rw [if_pos h2]
      exact ⟨⟨fun hc => absurd hc (by decide), fun hc => absurd hc h1⟩,
        ⟨fun _ => h2, fun _ => rfl⟩,
        ⟨fun hc => absurd hc (by decide), fun hc => absurd h2 hc.2⟩⟩
    · rw [if_neg h2]
      exact ⟨⟨fun hc => absurd hc (by decide), fun hc => absurd hc h1⟩,
        ⟨fun hc => absurd hc (by decide), fun hc => absurd hc h2⟩,
        ⟨fun _ => ⟨h1, h2⟩, fun _ => rfl⟩⟩

set_option maxHeartbeats 4000000 in
/-- C7 amended: on a frame of at least 50 bars with nonnegative window
parameters, the live scorer's score is the sum of the snapshot-gated rule
contributions — RSI ±1 gated by strategy_RSI, crosses ±2 and the +0.5
trend bias gated by strategy_MA, and the ungated +1.5 volume-surge bonus;
there is no Bollinger rule — and the decision is Buy iff score ≥ 1.5,
Sell iff score ≤ −1.5, else Neutral. -/
theorem claim_C7_amended (closes volumes : List ℚ) (params : Params)
    (hlen : 50 ≤ closes.length)
    (hw1 : 0 ≤ ((dictGet params "rsi_window").getD (.i 14)).toInt)
    (hw2 : 0 ≤ ((dictGet params "ma_short").getD (.i 20)).toInt)
    (hw3 : 0 ≤ ((dictGet params "ma_long").getD (.i 50)).toInt) :
    ∃ s r, liveSnapshot closes params = some s ∧
      analyze_stock closes volumes (some params) = some (.result r) ∧
      r.score = amendedLiveScore s (check_volume_surge closes volumes 2) params ∧
      (r.signal = "Buy" ↔ (3 : ℚ)/2 ≤ r.score) ∧
      (r.signal = "Sell" ↔ r.score ≤ -((3 : ℚ)/2)) ∧
      (r.signal = "Neutral" ↔
        ¬((3 : ℚ)/2 ≤ r.score) ∧ ¬(r.score ≤ -((3 : ℚ)/2))) := by
  have hne : ¬(closes.length = 0 ∨ closes.length < 50) := by omega
  obtain ⟨rsiC, hrsiC⟩ : ∃ x, Analyzer.calculate_rsi closes
      ((dictGet params "rsi_window").getD (.i 14)).toInt = some x :=
    ⟨_, by simp only [Analyzer.calculate_rsi, if_neg (not_lt.2 hw1)]; rfl⟩
  obtain ⟨smaSC, hsmaSC⟩ : ∃ x, Analyzer.calculate_sma closes
      ((dictGet params "ma_short").getD (.i 20)).toInt = some x :=
    ⟨_, by simp only [Analyzer.calculate_sma, if_neg (not_lt.2 hw2)]; rfl⟩
  obtain ⟨smaLC, hsmaLC⟩ : ∃ x, Analyzer.calculate_sma closes
      ((dictGet params "ma_long").getD (.i 50)).toInt = some x :=
    ⟨_, by simp only [Analyzer.calculate_sma, if_neg (not_lt.2 hw3)]; rfl⟩
  simp only [analyze_stock, liveSnapshot, if_neg hne, Option.getD_some,
    hrsiC, hsmaSC, hsmaLC]
  refine ⟨_, _, rfl, rfl, ?_, ?_, ?_, ?_⟩
  · simp only [amendedLiveScore]
    exact liveScoreShape _ _ _ _ _ _ _ _ _
  · exact (decisionIff _).1
  · exact (decisionIff _).2.1
  · exact (decisionIff _).2.2

/-- Witness for C7 amended: the 50-bar flat series with a last-bar volume
surge and all strategy toggles off, at which the theorem's hypotheses hold
by computation. -/
theorem claim_C7_witness :
    ∃ s r, liveSnapshot flatSeries togglesOffParams = some s ∧
      analyze_stock flatSeries surgeVolumes (some togglesOffParams) = some (.result r) ∧
      r.score = amendedLiveScore s (check_volume_surge flatSeries surgeVolumes 2)
        togglesOffParams ∧
      (r.signal = "Buy" ↔ (3 : ℚ)/2 ≤ r.score) ∧
      (r.signal = "Sell" ↔ r.score ≤ -((3 : ℚ)/2)) ∧
      (r.signal = "Neutral" ↔
        ¬((3 : ℚ)/2 ≤ r.score) ∧ ¬(r.score ≤ -((3 : ℚ)/2))) :=
  claim_C7_amended flatSeries surgeVolumes togglesOffParams (by decide)
    (by decide) (by decide) (by decide)

/-- On a nonnegative radicand the decider `ratLtSurd` agrees with the
real-number comparison of `q` against `base + coeff * sqrt rad`. -/
theorem ratLtSurd_correct (q : ℚ) (s : Surd) (hr : 0 ≤ s.rad) :
    ratLtSurd q s = true ↔ (q : ℝ) < s.base + s.coeff * Real.sqrt s.rad := by
  have hw0 : 0 ≤ Real.sqrt s.rad := Real.sqrt_nonneg _
  have hw2 : Real.sqrt s.rad ^ 2 = (s.rad : ℝ) := Real.sq_sqrt (by exact_mod_cast hr)
  simp only [ratLtSurd]
  split
  next hc =>
    have hc' : (0 : ℝ) ≤ (s.coeff : ℝ) := by exact_mod_cast hc
    have hcw : (0 : ℝ) ≤ (s.coeff : ℝ) * Real.sqrt s.rad := mul_nonneg hc' hw0
    simp only [Bool.or_eq_true, decide_eq_true_eq]
    constructor
    · rintro (h | h)
      · have h' : ((q : ℝ) - s.base) < 0 := by exact_mod_cast h
        linarith
      · have h' : ((q : ℝ) - s.base) ^ 2 < (s.coeff : ℝ) ^ 2 * s.rad := by exact_mod_cast h
        nlinarith [hw2, hcw, sq_nonneg ((q : ℝ) - s.base + s.coeff * Real.sqrt s.rad)]
    · intro h
      by_cases hd : q - s.base < 0
      · exact Or.inl hd
      · refine Or.inr ?_
        have hd' : (0 : ℝ) ≤ (q : ℝ) - s.base := by
          push_neg at hd
          exact_mod_cast hd
        have h' : ((q : ℝ) - s.base) < s.coeff * Real.sqrt s.rad := by linarith
        have hq : ((q : ℝ) - s.base) ^ 2 < (s.coeff : ℝ) ^ 2 * s.rad := by nlinarith [hw2]
        exact_mod_cast hq
  next hc =>
    have hc' : (s.coeff : ℝ) ≤ 0 := by
      have := le_of_lt (not_le.1 hc)
      exact_mod_cast this
    have hcw : (s.coeff : ℝ) * Real.sqrt s.rad ≤ 0 := mul_nonpos_of_nonpos_of_nonneg hc' hw0
    simp only [Bool.and_eq_true, decide_eq_true_eq]
    constructor
    · rintro ⟨h1, h2⟩
      have h1' : ((q : ℝ) - s.base) < 0 := by exact_mod_cast h1
      have h2' : (s.coeff : ℝ) ^ 2 * s.rad < ((q : ℝ) - s.base) ^ 2 := by exact_mod_cast h2
      nlinarith [hw2, sq_nonneg ((q : ℝ) - s.base - s.coeff * Real.sqrt s.rad)]
    · intro h
      have hdr : ((q : ℝ) - s.base) < s.coeff * Real.sqrt s.rad := by linarith
      have hd : ((q : ℝ) - s.base) < 0 := lt_of_lt_of_le hdr hcw
      refine ⟨by exact_mod_cast hd, ?_⟩
      have hq : (s.coeff : ℝ) ^ 2 * s.rad < ((q : ℝ) - s.base) ^ 2 := by nlinarith [hw2]
      exact_mod_cast hq

/-- On a nonnegative radicand the decider `surdLtRat` agrees with the
real-number comparison of `base + coeff * sqrt rad` against `q`. -/
theorem surdLtRat_correct (s : Surd) (q : ℚ) (hr : 0 ≤ s.rad) :
    surdLtRat s q = true ↔ (s.base : ℝ) + s.coeff * Real.sqrt s.rad < q := by
  have hw0 : 0 ≤ Real.sqrt s.rad := Real.sqrt_nonneg _
  have hw2 : Real.sqrt s.rad ^ 2 = (s.rad : ℝ) := Real.sq_sqrt (by exact_mod_cast hr)
  simp only [surdLtRat]
  split
  next hc =>
    have hc' : (s.coeff : ℝ) ≤ 0 := by exact_mod_cast hc
    have hcw : (s.coeff : ℝ) * Real.sqrt s.rad ≤ 0 := mul_nonpos_of_nonpos_of_nonneg hc' hw0
    simp only [Bool.or_eq_true, decide_eq_true_eq]
    constructor
    · rintro (h | h)
      · have h' : (0 : ℝ) < (q : ℝ) - s.base := by exact_mod_cast h
        linarith
      · have h' : ((q : ℝ) - s.base) ^ 2 < (s.coeff : ℝ) ^ 2 * s.rad := by exact_mod_cast h
        nlinarith [hw2, hcw, sq_nonneg ((q : ℝ) - s.base + s.coeff * Real.sqrt s.rad)]
    · intro h
      by_cases hd : 0 < q - s.base
      · exact Or.inl hd
      · refine Or.inr ?_
        have hd' : ((q : ℝ) - s.base) ≤ 0 := by
          push_neg at hd
          exact_mod_cast hd
        have h' : (s.coeff : ℝ) * Real.sqrt s.rad < (q : ℝ) - s.base := by linarith
        have hq : ((q : ℝ) - s.base) ^ 2 < (s.coeff : ℝ) ^ 2 * s.rad := by nlinarith [hw2]
        exact_mod_cast hq
  next hc =>
    have hc' : (0 : ℝ) ≤ (s.coeff : ℝ) := by
      have := le_of_lt (not_le.1 hc)
      exact_mod_cast this
    have hcw : (0 : ℝ) ≤ (s.coeff : ℝ) * Real.sqrt s.rad := mul_nonneg hc' hw0
    simp only [Bool.and_eq_true, decide_eq_true_eq]
    constructor
    · rintro ⟨h1, h2⟩
      have h1' : (0 : ℝ) < (q : ℝ) - s.base := by exact_mod_cast h1
      have h2' : (s.coeff : ℝ) ^ 2 * s.rad < ((q : ℝ) - s.base) ^ 2 := by exact_mod_cast h2
      nlinarith [hw2, sq_nonneg ((q : ℝ) - s.base - s.coeff * Real.sqrt s.rad)]
    · intro h
      have hdr : (s.coeff : ℝ) * Real.sqrt s.rad < (q : ℝ) - s.base := by linarith
      have hd : (0 : ℝ) < (q : ℝ) - s.base := lt_of_le_of_lt hcw hdr
      refine ⟨by exact_mod_cast hd, ?_⟩
      have hq : (s.coeff : ℝ) ^ 2 * s.rad < ((q : ℝ) - s.base) ^ 2 := by nlinarith [hw2]
      exact_mod_cast hq
